import Mathlib

/-!
# peco command (`cmd/peco/peco.go`): the `main` function

A shallow embedding of `main` of `cmd/peco/peco.go`.  The function is a
straight-line driver around library calls (`go-flags`, `termbox`, the `peco`
package), Go's `defer`/`panic`/`recover`, and the final emit loop that prints
the selected lines.  The outcomes of the library calls are the fields of
`Env`; a run of `main` is the trace of events it produces, together with the
exit status handed to `os.Exit`.
-/

namespace Peco

/-- A Go `string`: a sequence of bytes. -/
abbrev GoString := List (Fin 256)

/-- The byte `'\n'`. -/
def NL : Fin 256 := 10

/-- Go's `len(s)` for a string, an `int`. -/
def len (s : GoString) : Int := (s.length : Int)

/-- Go's `s[i]` for a string: `none` stands for the run-time error
"index out of range". -/
def byteAt (s : GoString) (i : Int) : Option (Fin 256) :=
  if 0 ≤ i ∧ i < len s then s.get? i.toNat else none

/-- The struct `cmdOptions` (lines 31-40). -/
structure cmdOptions where
  Help : Bool
  TTY : GoString
  Query : GoString
  Rcfile : GoString
  NoIgnoreCase : Bool
  Version : Bool
  BufferSize : Int
  ContextSep : Bool
deriving DecidableEq, Repr

/-- The value of the variable `in` (line 71): an opened file or `os.Stdin`. -/
inductive Input where
  | file (path : GoString)
  | stdin
deriving DecidableEq, Repr

/-- The five loopers of lines 158-164, in the order of the slice. -/
inductive Worker where
  | reader
  | view
  | filter
  | input
  | sig
deriving DecidableEq, Repr

/-- The library calls `main` makes, with their arguments. -/
inductive Call where
  | setGOMAXPROCS
  | parse
  | osOpen (path : GoString)
  | isTtyStdin
  | newCtx (sep : Bool) (bufferSize : Int)
  | locateRcfile
  | setCurrentMatcher (m : Int)
  | readConfig (path : GoString)
  | ttyReady
  | ttyTerm
  | termboxInit
  | termboxClose
  | setInputMode
  | newView
  | newFilter
  | newInput
  | newBufferReader (inp : Input)
  | newSignalHandler
  | addWaitGroup (n : Int)
  | setQuery (q : GoString)
  | execQuery
  | viewRefresh
  | waitDone
  | result
deriving DecidableEq, Repr

/-- A value carried by a panic: one raised inside a library call, or the
run-time error of an out-of-range string index. Every value is non-nil:
`recover()` returns it as such and the check of line 92 succeeds. -/
inductive PanicVal where
  | value (v : GoString)
  | indexOutOfRange (idx : Int) (length : Int)
deriving DecidableEq, Repr

/-- What is written to standard error. -/
inductive StderrMsg where
  | help
  | version
  | flagError (e : GoString)
  | error (e : GoString)
  | noInput
  | panicMsg (v : PanicVal)
deriving DecidableEq, Repr

/-- The observable steps of a run. The event `go w m` is the statement
`go looper.Loop()` for the looper `w`, and records the coordinator's current
matcher `m` at that moment. What the goroutines do is outside `main`. -/
inductive Event where
  | call (c : Call)
  | stderr (m : StderrMsg)
  | stdout (s : GoString)
  | go (w : Worker) (matcher : Int)
  | readExitStatus (v : Int)
  | panic (v : PanicVal)
  | recovered (v : PanicVal)
  | exit (st : Int)
deriving DecidableEq, Repr

/-- The deferred calls of `main`: line 46, lines 91-106, line 137, line 145. -/
inductive Deferred where
  | exit
  | handler
  | ttyTerm
  | termboxClose
deriving DecidableEq, Repr

/-- The outcomes of everything `main` calls but does not define. A call is
identified by its position in the run (the number of events before it) and
its arguments; `panicAt` says whether that call panics, and with what. An
error result is `some err` (or `Except.error err`), success is `none`. -/
structure Env where
  /-- The environment variable `GOMAXPROCS` (line 48). -/
  GOMAXPROCS : GoString
  /-- The result of `p.Parse()`: the options and the arguments, or an error. -/
  parse : Except GoString (cmdOptions × List GoString)
  /-- The error of `os.Open`, if any. -/
  osOpen : GoString → Option GoString
  /-- The result of `peco.IsTty(os.Stdin.Fd())`. -/
  stdinIsTty : Bool
  /-- The constant `peco.IgnoreCaseMatch`. -/
  IgnoreCaseMatch : Int
  /-- The constant `peco.CaseSensitiveMatch`. -/
  CaseSensitiveMatch : Int
  /-- The matcher of a context fresh from `peco.NewCtx`. -/
  initialMatcher : Int
  /-- The result of `peco.LocateRcfile()`. -/
  locateRcfile : Except GoString GoString
  /-- The effect of `ctx.ReadConfig(file)` on the current matcher, and its error. -/
  readConfig : GoString → Int → Int × Option GoString
  /-- The error of `peco.TtyReady()`, if any. -/
  ttyReady : Option GoString
  /-- The error of `termbox.Init()`, if any. -/
  termboxInit : Option GoString
  /-- Whether `runtime.GOOS` is `"windows"`. -/
  windows : Bool
  /-- The field `ctx.ExitStatus` when line 179 reads it. -/
  ExitStatus : Int
  /-- The output texts (`match.Output()`) of the lines `ctx.Result()` returns
  when the handler calls it; `none` is the nil slice. -/
  result : Option (List GoString)
  /-- Whether the call made at the given position panics, and with what. -/
  panicAt : Nat → Call → Option GoString

/-- The state of the running process: the variable `st`, the coordinator's
current matcher, the events so far, the stack of deferred calls (most recent
first), the panic in flight, and the status given to `os.Exit`. -/
structure Proc where
  st : Int
  matcher : Int
  trace : List Event
  defers : List Deferred
  panicking : Option PanicVal
  exited : Option Int
deriving DecidableEq, Repr

/-- Append an event to the trace. -/
def log (e : Event) (p : Proc) : Proc :=
  { p with trace := p.trace ++ [e] }

/-- Start panicking with value `v`. -/
def raise (v : PanicVal) (p : Proc) : Proc :=
  { p with trace := p.trace ++ [Event.panic v], panicking := some v }

/-- A library call `c` followed by the rest `k` of the enclosing function:
when the call panics the rest is skipped. -/
def invoke (env : Env) (c : Call) (p : Proc) (k : Proc → Proc) : Proc :=
  match env.panicAt p.trace.length c with
  | some v => raise (PanicVal.value v) (log (Event.call c) p)
  | none => k (log (Event.call c) p)

/-- Lines 98-104: the loop over the result. -/
def emitLoop : List GoString → Proc → Proc
  | [], p => p
  | line :: rest, p =>
    match byteAt line (len line - 1) with
    | none => raise (PanicVal.indexOutOfRange (len line - 1) (len line)) p
    | some b =>
      let line1 := if b ≠ NL then line ++ [NL] else line
      emitLoop rest (log (Event.stdout line1) p)

/-- Lines 91-106: the deferred function that recovers and emits. -/
def handler (env : Env) (p : Proc) : Proc :=
  let p1 : Proc :=
    match p.panicking with
    | some v =>
      log (Event.stderr (StderrMsg.panicMsg v))
        { log (Event.recovered v) p with panicking := none, st := 1 }
    | none => p
  invoke env Call.result p1 fun p2 =>
    match env.result with
    | some result => emitLoop result p2
    | none => p2

/-- Run one deferred call. -/
def runDeferred (env : Env) : Deferred → Proc → Proc
  | Deferred.exit, p => { log (Event.exit p.st) p with exited := some p.st }
  | Deferred.handler, p => handler env p
  | Deferred.ttyTerm, p => invoke env Call.ttyTerm p id
  | Deferred.termboxClose, p => invoke env Call.termboxClose p id

/-- Run the deferred calls, most recent first, until one of them exits the
process. If none does, the Go run time ends the process: status 2 when a
panic is still in flight, status 0 otherwise. -/
def runDefers (env : Env) : List Deferred → Proc → Proc
  | [], p =>
    match p.panicking with
    | some _ => { log (Event.exit 2) p with exited := some 2 }
    | none => { log (Event.exit 0) p with exited := some 0 }
  | d :: ds, p =>
    let p1 := runDeferred env d p
    if p1.exited.isSome then p1 else runDefers env ds p1

/-- Lines 177-179: wait for the workers, then read the exit status. -/
def waitAndRead (env : Env) (p : Proc) : Proc :=
  invoke env Call.waitDone p fun p1 =>
    { log (Event.readExitStatus env.ExitStatus) p1 with st := env.ExitStatus }

/-- Lines 170-175: seed the query or refresh the view, then wait. -/
def seedQuery (env : Env) (opts : cmdOptions) (p : Proc) : Proc :=
  if 0 < len opts.Query then
    invoke env (Call.setQuery opts.Query) p fun p1 =>
      invoke env Call.execQuery p1 (waitAndRead env)
  else
    invoke env Call.viewRefresh p (waitAndRead env)

/-- Lines 165-168: the loop that starts the loopers. -/
def startLoopers (env : Env) : List Worker → Proc → (Proc → Proc) → Proc
  | [], p, k => k p
  | w :: ws, p, k =>
    invoke env (Call.addWaitGroup 1) p fun p1 =>
      startLoopers env ws (log (Event.go w p1.matcher) p1) k

/-- Lines 152-175: create the workers and start them. -/
def createWorkers (env : Env) (opts : cmdOptions) (inp : Input) (p : Proc) : Proc :=
  invoke env Call.newView p fun p1 =>
  invoke env Call.newFilter p1 fun p2 =>
  invoke env Call.newInput p2 fun p3 =>
  invoke env (Call.newBufferReader inp) p3 fun p4 =>
  invoke env Call.newSignalHandler p4 fun p5 =>
  startLoopers env [Worker.reader, Worker.view, Worker.filter, Worker.input, Worker.sig] p5
    (seedQuery env opts)

/-- Lines 147-179: the terminal is ready. -/
def runWorkers (env : Env) (opts : cmdOptions) (inp : Input) (p : Proc) : Proc :=
  if env.windows then invoke env Call.setInputMode p (createWorkers env opts inp)
  else createWorkers env opts inp p

/-- Lines 131-145: terminal setup. -/
def setupTerminal (env : Env) (opts : cmdOptions) (inp : Input) (p : Proc) : Proc :=
  invoke env Call.ttyReady p fun p1 =>
    match env.ttyReady with
    | some err => log (Event.stderr (StderrMsg.error err)) { p1 with st := 1 }
    | none =>
      invoke env Call.termboxInit { p1 with defers := Deferred.ttyTerm :: p1.defers } fun p2 =>
        match env.termboxInit with
        | some err => log (Event.stderr (StderrMsg.error err)) { p2 with st := 1 }
        | none =>
          runWorkers env opts inp { p2 with defers := Deferred.termboxClose :: p2.defers }

/-- Lines 127-129: the `--no-ignore-case` flag. -/
def chooseCase (env : Env) (opts : cmdOptions) (inp : Input) (p : Proc) : Proc :=
  if opts.NoIgnoreCase then
    invoke env (Call.setCurrentMatcher env.CaseSensitiveMatch) p fun p1 =>
      setupTerminal env opts inp { p1 with matcher := env.CaseSensitiveMatch }
  else setupTerminal env opts inp p

/-- Lines 115-125: the default matcher and the settings file `rcfile` (the
value of `opts.Rcfile` after lines 108-113). -/
def configure (env : Env) (opts : cmdOptions) (rcfile : GoString) (inp : Input)
    (p : Proc) : Proc :=
  invoke env (Call.setCurrentMatcher env.IgnoreCaseMatch) p fun p1 =>
    if rcfile ≠ [] then
      invoke env (Call.readConfig rcfile) { p1 with matcher := env.IgnoreCaseMatch } fun p2 =>
        match env.readConfig rcfile p2.matcher with
        | (_, some err) => log (Event.stderr (StderrMsg.error err)) { p2 with st := 1 }
        | (m, none) => chooseCase env opts inp { p2 with matcher := m }
    else chooseCase env opts inp { p1 with matcher := env.IgnoreCaseMatch }

/-- Lines 90-113: the coordinator context, the deferred handler, and the
location of the settings file. -/
def withCtx (env : Env) (opts : cmdOptions) (inp : Input) (p : Proc) : Proc :=
  invoke env (Call.newCtx opts.ContextSep opts.BufferSize) p fun p1 =>
    let p2 : Proc :=
      { p1 with matcher := env.initialMatcher, defers := Deferred.handler :: p1.defers }
    if opts.Rcfile = [] then
      invoke env Call.locateRcfile p2 fun p3 =>
        match env.locateRcfile with
        | Except.ok file => configure env opts file inp p3
        | Except.error _ => configure env opts opts.Rcfile inp p3
    else configure env opts opts.Rcfile inp p2

/-- Lines 71-88: the input source. -/
def openInput (env : Env) (opts : cmdOptions) (args : List GoString) (p : Proc) : Proc :=
  match args with
  | path :: _ =>
    invoke env (Call.osOpen path) p fun p1 =>
      match env.osOpen path with
      | some err => log (Event.stderr (StderrMsg.error err)) { p1 with st := 1 }
      | none => withCtx env opts (Input.file path) p1
  | [] =>
    invoke env Call.isTtyStdin p fun p1 =>
      if !env.stdinIsTty then withCtx env opts Input.stdin p1
      else { log (Event.stderr StderrMsg.noInput) p1 with st := 1 }

/-- Lines 52-69: flag parsing, help and version. With `flags.PrintErrors` the
parser prints its own error to standard error. -/
def parseFlags (env : Env) (p : Proc) : Proc :=
  invoke env Call.parse p fun p1 =>
    match env.parse with
    | Except.error e =>
      { log (Event.stderr StderrMsg.help) (log (Event.stderr (StderrMsg.flagError e)) p1)
          with st := 1 }
    | Except.ok (opts, args) =>
      if opts.Help then log (Event.stderr StderrMsg.help) p1
      else if opts.Version then log (Event.stderr StderrMsg.version) p1
      else openInput env opts args p1

/-- Lines 48-179: the body of `main`, up to its return or its panic. -/
def mainBody (env : Env) (p : Proc) : Proc :=
  parseFlags env (if env.GOMAXPROCS = [] then log (Event.call Call.setGOMAXPROCS) p else p)

/-- The process at the start of `main`, after line 46. -/
def initial : Proc :=
  { st := 0, matcher := 0, trace := [], defers := [Deferred.exit],
    panicking := none, exited := none }

/-- A run of `main`: the body, then the deferred calls. -/
def main (env : Env) : Proc :=
  let p := mainBody env initial
  runDefers env p.defers p

/-- The texts written to standard output by a trace, one per write, in order. -/
def writes : List Event → List GoString
  | [] => []
  | Event.stdout s :: es => s :: writes es
  | _ :: es => writes es

/-- The bytes written to standard output by a trace. -/
def stdoutOf (t : List Event) : GoString :=
  (writes t).flatten

/-- The newline normalisation as the specification words it: a text ending in
a newline is written unchanged, any other text gets one newline appended. -/
def normalise (line : GoString) : GoString :=
  if line.getLast? = some NL then line else line ++ [NL]

/-- The Output Set: the texts of the lines `Result()` returns, none for `nil`. -/
def outputSet (env : Env) : List GoString :=
  env.result.getD []

/-- Is the event a write to standard output? -/
def isStdout : Event → Bool
  | Event.stdout _ => true
  | _ => false

/-- Is the event the raising of a panic? -/
def isPanic : Event → Bool
  | Event.panic _ => true
  | _ => false

/-- The events of the emit loop on the given texts: one write per text, up to
the first empty text, where the index panics. -/
def emitEvents : List GoString → List Event
  | [] => []
  | l :: rest =>
    if l = [] then [Event.panic (PanicVal.indexOutOfRange (-1) 0)]
    else Event.stdout (normalise l) :: emitEvents rest

/-- The panic the emit loop ends in, if any. -/
def emitPanic (ls : List GoString) : Option PanicVal :=
  if ls.any (fun l => l.isEmpty) then some (PanicVal.indexOutOfRange (-1) 0) else none

/-- What `recover()` and line 94 add to the trace. -/
def recoverEvents : Option PanicVal → List Event
  | some v => [Event.recovered v, Event.stderr (StderrMsg.panicMsg v)]
  | none => []

/-- The panic event that follows the call `c` made at position `n`, if the
call panics. -/
def panicTail (env : Env) (n : Nat) (c : Call) : List Event :=
  match env.panicAt n c with
  | some v => [Event.panic (PanicVal.value v)]
  | none => []

/-- The panic in flight after the call `c` made at position `n`. -/
def panicAfter (env : Env) (n : Nat) (c : Call) (pk : Option PanicVal) : Option PanicVal :=
  match env.panicAt n c with
  | some v => some (PanicVal.value v)
  | none => pk

/-- What the emit loop adds after the call of `Result()` made at position `n`. -/
def emitAfter (env : Env) (n : Nat) : List Event :=
  match env.panicAt n Call.result with
  | some _ => []
  | none => emitEvents (outputSet env)

/-- The events that can occur before terminal setup starts; `fileArg` says
whether a file argument was given. -/
def early (fileArg : Bool) : Event → Bool
  | Event.call Call.setGOMAXPROCS => true
  | Event.call Call.parse => true
  | Event.call (Call.osOpen _) => true
  | Event.call Call.isTtyStdin => !fileArg
  | Event.call (Call.newCtx _ _) => true
  | Event.call Call.locateRcfile => true
  | Event.call (Call.setCurrentMatcher _) => true
  | Event.call (Call.readConfig _) => true
  | Event.stderr (StderrMsg.panicMsg _) => false
  | Event.stderr _ => true
  | Event.panic (PanicVal.value _) => true
  | _ => false

/-- The state of a run that has not failed so far: only early events, no
exit, no panic in flight, `st` still 0, and the given deferred calls. -/
structure Before (fileArg : Bool) (ds : List Deferred) (p : Proc) : Prop where
  events : ∀ e ∈ p.trace, early fileArg e = true
  exited : p.exited = none
  panicking : p.panicking = none
  st : p.st = 0
  defers : p.defers = ds

/-- The state of a body that ended before terminal setup started. -/
structure Ended (fileArg : Bool) (q : Proc) : Prop where
  events : ∀ e ∈ q.trace, early fileArg e = true
  exited : q.exited = none
  defers : q.defers = [Deferred.exit] ∨ q.defers = [Deferred.handler, Deferred.exit]

/-- The value of `in` for the given arguments (lines 74-88). -/
def inputOf : List GoString → Input
  | path :: _ => Input.file path
  | [] => Input.stdin

/-- Whether the parsed command line holds a file argument. -/
def fileGiven (env : Env) : Bool :=
  match env.parse with
  | Except.ok (_, _ :: _) => true
  | _ => false

/-- The settings file in use: the one named by `--rcfile`, else the one
located, else none (the empty path). -/
def settingsFile (env : Env) (opts : cmdOptions) : GoString :=
  if opts.Rcfile = [] then
    match env.locateRcfile with
    | Except.ok file => file
    | Except.error _ => []
  else opts.Rcfile

/-- The matcher rule as the specification words it: case-sensitive whenever
`--no-ignore-case` is set; else case-insensitive when there is no settings
file; else what the settings file leaves selected, starting from the
case-insensitive default. -/
def matcherRule (env : Env) (opts : cmdOptions) : Int :=
  if opts.NoIgnoreCase then env.CaseSensitiveMatch
  else if settingsFile env opts = [] then env.IgnoreCaseMatch
  else (env.readConfig (settingsFile env opts) env.IgnoreCaseMatch).1

/-- The events of creating and starting the workers, up to the wait: with
input `inp` and matcher `m`. -/
def starting (inp : Input) (m : Int) : Event → Bool
  | Event.call Call.setInputMode => true
  | Event.call Call.newView => true
  | Event.call Call.newFilter => true
  | Event.call Call.newInput => true
  | Event.call (Call.newBufferReader i) => decide (i = inp)
  | Event.call Call.newSignalHandler => true
  | Event.call (Call.addWaitGroup n) => decide (n = 1)
  | Event.call (Call.setQuery _) => true
  | Event.call Call.execQuery => true
  | Event.call Call.viewRefresh => true
  | Event.go _ m1 => decide (m1 = m)
  | _ => false

/-- The events of lines 147-179. -/
def working (inp : Input) (m : Int) : Event → Bool
  | Event.call Call.waitDone => true
  | Event.readExitStatus _ => true
  | Event.panic (PanicVal.value _) => true
  | e => starting inp m e

/-- The state while the workers are created and started, relative to the
state `p0` at line 147. -/
structure Working (inp : Input) (p0 p : Proc) : Prop where
  events : ∀ e ∈ p.trace, e ∈ p0.trace ∨ starting inp p0.matcher e = true
  exited : p.exited = p0.exited
  panicking : p.panicking = p0.panicking
  defers : p.defers = p0.defers
  matcher : p.matcher = p0.matcher

/-- The state when lines 147-179 are over, relative to the state `p0` at line
147: either a call panicked, or the exit status was read right after
`WaitDone` returned. -/
structure Worked (env : Env) (inp : Input) (p0 q : Proc) : Prop where
  events : ∀ e ∈ q.trace, e ∈ p0.trace ∨ working inp p0.matcher e = true
  exited : q.exited = p0.exited
  defers : q.defers = p0.defers
  outcome : (∃ v, Event.panic v ∈ q.trace) ∨
    (q.panicking = p0.panicking ∧ q.st = env.ExitStatus ∧
      ∃ pre, q.trace = pre ++ [Event.call Call.waitDone, Event.readExitStatus env.ExitStatus] ∧
        ∀ e ∈ pre, e ∈ p0.trace ∨ starting inp p0.matcher e = true)

/-- The events the deferred calls `ds` can add. -/
def deferring (ds : List Deferred) : Event → Bool
  | Event.call Call.ttyTerm => decide (Deferred.ttyTerm ∈ ds)
  | Event.call Call.termboxClose => decide (Deferred.termboxClose ∈ ds)
  | Event.call Call.result => decide (Deferred.handler ∈ ds)
  | Event.recovered _ => decide (Deferred.handler ∈ ds)
  | Event.stderr (StderrMsg.panicMsg _) => decide (Deferred.handler ∈ ds)
  | Event.stdout _ => decide (Deferred.handler ∈ ds)
  | Event.panic _ => true
  | Event.exit _ => true
  | _ => false

/-- Does the event lie past flag parsing: an input source opened or probed,
the coordinator context created or used, the terminal set up, a worker
created or started, a line written? -/
def pastFlags : Event → Bool
  | Event.call Call.setGOMAXPROCS => false
  | Event.call Call.parse => false
  | Event.call _ => true
  | Event.go _ _ => true
  | Event.readExitStatus _ => true
  | Event.stdout _ => true
  | _ => false

/-- Does the event lie past the choice of the input source: the coordinator
context created or used, the terminal set up, a worker created or started, a
line written? -/
def pastInput : Event → Bool
  | Event.call (Call.osOpen _) => false
  | Event.call Call.isTtyStdin => false
  | e => pastFlags e

/-- Is the event the creation or the start of a worker, or the addition of a
wait-group count? -/
def isWorkerEvent : Event → Bool
  | Event.call Call.newView => true
  | Event.call Call.newFilter => true
  | Event.call Call.newInput => true
  | Event.call (Call.newBufferReader _) => true
  | Event.call Call.newSignalHandler => true
  | Event.call (Call.addWaitGroup _) => true
  | Event.go _ _ => true
  | _ => false

/-- No input stream can be obtained: opening the file argument fails, or
there is no file argument and standard input is a terminal. -/
def noInput (env : Env) : List GoString → Prop
  | path :: _ => (∀ n, env.panicAt n (Call.osOpen path) = none) ∧ env.osOpen path ≠ none
  | [] => (∀ n, env.panicAt n Call.isTtyStdin = none) ∧ env.stdinIsTty = true

/-- What the input-source error prints (lines 79 and 85). -/
def noInputEvents (env : Env) : List GoString → List Event
  | path :: _ =>
    [Event.call (Call.osOpen path),
      Event.stderr (match env.osOpen path with
        | some err => StderrMsg.error err
        | none => StderrMsg.noInput)]
  | [] => [Event.call Call.isTtyStdin, Event.stderr StderrMsg.noInput]

/-- The events up to the return of the flag parser. -/
def parsed (env : Env) : List Event :=
  (if env.GOMAXPROCS = [] then [Event.call Call.setGOMAXPROCS] else []) ++
    [Event.call Call.parse]

/-- A baseline command line: no flag, no argument. -/
def opts0 : cmdOptions :=
  { Help := false, TTY := [], Query := [], Rcfile := [], NoIgnoreCase := false,
    Version := false, BufferSize := 0, ContextSep := false }

/-- A baseline environment: input piped on standard input, no settings file,
every call succeeds, the user confirms one line `a`. -/
def env0 : Env :=
  { GOMAXPROCS := [], parse := Except.ok (opts0, []), osOpen := fun _ => none,
    stdinIsTty := false, IgnoreCaseMatch := 0, CaseSensitiveMatch := 1,
    initialMatcher := 0, locateRcfile := Except.error [1],
    readConfig := fun _ m => (m, none), ttyReady := none, termboxInit := none,
    windows := false, ExitStatus := 0, result := some [[97]],
    panicAt := fun _ _ => none }

/-- A run that confirms the two lines `a` and `b\n`. -/
def envTwoLines : Env :=
  { env0 with result := some [[97], [98, 10]] }

/-- A run of `peco --help --version`. -/
def envHelp : Env :=
  { env0 with parse := Except.ok ({ opts0 with Help := true, Version := true }, []) }

/-- A run of `peco missing.txt` where the file cannot be opened. -/
def envNoFile : Env :=
  { env0 with
    parse := Except.ok (opts0, [[109]])
    osOpen := fun _ => some [101]
    stdinIsTty := false }

/-- `TtyReady` is called and returns an error. -/
def ttyReadyFails (env : Env) : Prop :=
  Event.call Call.ttyReady ∈ (main env).trace ∧
    (∀ n, env.panicAt n Call.ttyReady = none) ∧ env.ttyReady ≠ none

/-- `termbox.Init` is called, which takes that `TtyReady` succeeded, and
returns an error. -/
def termboxInitFails (env : Env) : Prop :=
  Event.call Call.termboxInit ∈ (main env).trace ∧
    (∀ n, env.panicAt n Call.termboxInit = none) ∧ env.termboxInit ≠ none

/-- A run in which `termbox.Init` fails. -/
def envInitFails : Env :=
  { env0 with termboxInit := some [101] }

/-- Does the event belong to the end of a run: a release of the terminal, the
recover step, the call of `Result()`, a write to standard output, the exit? -/
def isFinal : Event → Bool
  | Event.call Call.termboxClose => true
  | Event.call Call.ttyTerm => true
  | Event.call Call.result => true
  | Event.recovered _ => true
  | Event.stderr (StderrMsg.panicMsg _) => true
  | Event.stdout _ => true
  | Event.exit _ => true
  | _ => false

/-- Is the event part of the recover step (lines 92-95), or a panic? -/
def isRecover : Event → Bool
  | Event.recovered _ => true
  | Event.stderr (StderrMsg.panicMsg _) => true
  | Event.panic _ => true
  | _ => false

/-- A run in which the user confirms a line and `WaitDone` then panics. -/
def envPanic : Env :=
  { env0 with panicAt := fun _ c => if c = Call.waitDone then some [112] else none }

/-- Is the event the call of `WaitDone` or the read of `ExitStatus`? -/
def isWaitOrRead : Event → Bool
  | Event.call Call.waitDone => true
  | Event.readExitStatus _ => true
  | _ => false

/-- A run in which the user cancels: no line, exit status 1. -/
def envCancel : Env :=
  { env0 with ExitStatus := 1, result := none }

/-- A run in which the user confirms three lines, the second with an empty
output text, and the coordinator leaves exit status 0. -/
def envEmptyLine : Env :=
  { env0 with result := some [[97], [], [98]] }

/-- A run in which the user confirms the same three lines and `WaitDone` then
panics. -/
def envPanicEmptyLine : Env :=
  { env0 with
    result := some [[97], [], [98]]
    panicAt := fun _ c => if c = Call.waitDone then some [112] else none }

/-- A run in which the user confirms one line, with an empty output text. -/
def envOnlyEmptyLine : Env :=
  { env0 with result := some [[]] }

/-! ## The emit loop -/

theorem byteAt_last (l : GoString) (h : l ≠ []) : byteAt l (len l - 1) = l.getLast? := by
  unfold byteAt len
  have hl : 0 < l.length := List.length_pos.mpr h
  have h1 : (0:Int) ≤ (l.length : Int) - 1 ∧ (l.length : Int) - 1 < (l.length : Int) := by
    omega
  rw [if_pos h1]
  have h2 : ((l.length : Int) - 1).toNat = l.length - 1 := by omega
  rw [h2, List.getLast?_eq_getElem?, List.get?_eq_getElem?]

theorem byteAt_nil : byteAt [] (len [] - 1) = none := by decide

theorem writes_append (a b : List Event) : writes (a ++ b) = writes a ++ writes b := by
  induction a with
  | nil => rfl
  | cons e es ih => cases e <;> simp [writes, ih]

theorem writes_map_stdout (ls : List GoString) :
    writes (ls.map fun l => Event.stdout (normalise l)) = ls.map normalise := by
  induction ls with
  | nil => rfl
  | cons l ls ih => simp [writes, ih]

theorem normalise_last (l : GoString) : (normalise l).getLast? = some NL := by
  unfold normalise
  split
  · assumption
  · exact List.getLast?_concat l

theorem emitLoop_nonempty (ls : List GoString) (p : Proc) (h : ∀ l ∈ ls, l ≠ []) :
    emitLoop ls p =
      { p with trace := p.trace ++ ls.map fun l => Event.stdout (normalise l) } := by
  induction ls generalizing p with
  | nil => simp [emitLoop]
  | cons l ls ih =>
    have hl : l ≠ [] := h l (List.mem_cons_self _ _)
    have hb := byteAt_last l hl
    obtain ⟨b, hb1⟩ : ∃ b, l.getLast? = some b := by
      cases hq : l.getLast? with
      | none => exact absurd (List.getLast?_eq_none_iff.mp hq) hl
      | some b => exact ⟨b, rfl⟩
    rw [emitLoop, hb, hb1]
    simp only []
    rw [ih _ fun x hx => h x (List.mem_cons_of_mem _ hx)]
    have hn : (if b ≠ NL then l ++ [NL] else l) = normalise l := by
      unfold normalise
      rw [hb1]
      by_cases hbn : b = NL <;> simp [hbn]
    simp [log, hn]

theorem emitLoop_eq (ls : List GoString) (p : Proc) :
    emitLoop ls p =
      { p with
        trace := p.trace ++ emitEvents ls
        panicking := match emitPanic ls with
          | some v => some v
          | none => p.panicking } := by
  induction ls generalizing p with
  | nil => simp [emitLoop, emitEvents, emitPanic]
  | cons l ls ih =>
    by_cases hl : l = []
    · subst hl
      rw [emitLoop, byteAt_nil]
      simp [raise, emitEvents, emitPanic, len]
    · have hb := byteAt_last l hl
      obtain ⟨b, hb1⟩ : ∃ b, l.getLast? = some b := by
        cases hq : l.getLast? with
        | none => exact absurd (List.getLast?_eq_none_iff.mp hq) hl
        | some b => exact ⟨b, rfl⟩
      rw [emitLoop, hb, hb1]
      simp only []
      rw [ih]
      have hn : (if b ≠ NL then l ++ [NL] else l) = normalise l := by
        unfold normalise
        rw [hb1]
        by_cases hbn : b = NL <;> simp [hbn]
      have he : l.isEmpty = false := by
        cases l with
        | nil => exact absurd rfl hl
        | cons a t => rfl
      simp [log, hn, emitEvents, emitPanic, hl, he]

theorem emitEvents_kind (ls : List GoString) :
    ∀ e ∈ emitEvents ls, isStdout e = true ∨ isPanic e = true := by
  induction ls with
  | nil => simp [emitEvents]
  | cons l ls ih =>
    unfold emitEvents
    split
    · simp [isPanic]
    · intro e he
      rcases List.mem_cons.mp he with rfl | h
      · simp [isStdout]
      · exact ih e h

theorem emitEvents_no_panic (ls : List GoString)
    (h : ∀ e ∈ emitEvents ls, isPanic e = false) :
    (∀ l ∈ ls, l ≠ []) ∧ emitPanic ls = none ∧
      emitEvents ls = ls.map fun l => Event.stdout (normalise l) := by
  induction ls with
  | nil => simp [emitEvents, emitPanic]
  | cons l ls ih =>
    by_cases hl : l = []
    · subst hl
      have := h (Event.panic (PanicVal.indexOutOfRange (-1) 0)) (by simp [emitEvents])
      simp [isPanic] at this
    · have h1 : ∀ e ∈ emitEvents ls, isPanic e = false := by
        intro e he
        apply h
        simp [emitEvents, hl, he]
      obtain ⟨ha, hb, hc⟩ := ih h1
      have he : l.isEmpty = false := by
        cases l with
        | nil => exact absurd rfl hl
        | cons a t => rfl
      refine ⟨?_, ?_, ?_⟩
      · intro x hx
        rcases List.mem_cons.mp hx with rfl | hx
        · exact hl
        · exact ha x hx
      · unfold emitPanic at hb ⊢
        simp only [List.any_cons, he, Bool.false_or]
        exact hb
      · simp [emitEvents, hl, hc]

/-! ## The deferred calls -/

theorem invoke_id (env : Env) (c : Call) (p : Proc) :
    invoke env c p id =
      { p with
        trace := p.trace ++ Event.call c :: panicTail env p.trace.length c
        panicking := panicAfter env p.trace.length c p.panicking } := by
  unfold invoke panicTail panicAfter
  cases env.panicAt p.trace.length c <;> simp [raise, log]

theorem handler_eq (env : Env) (p : Proc) :
    handler env p =
      { p with
        st := if p.panicking.isSome then 1 else p.st
        trace := p.trace ++ recoverEvents p.panicking ++
          Event.call Call.result ::
            (panicTail env (p.trace ++ recoverEvents p.panicking).length Call.result ++
              emitAfter env (p.trace ++ recoverEvents p.panicking).length)
        panicking :=
          panicAfter env (p.trace ++ recoverEvents p.panicking).length Call.result
            (emitPanic (outputSet env)) } := by
  unfold handler invoke panicTail panicAfter emitAfter outputSet
  cases hp : p.panicking <;> cases hr : env.result <;>
    simp only [recoverEvents, log, raise, List.append_nil, List.length_append,
      List.length_cons, List.length_nil, List.append_assoc] <;>
    split <;> simp_all [emitLoop_eq, emitPanic, emitEvents, raise, log] <;>
    split_ifs <;> rfl

/-! ## The body up to terminal setup -/

theorem Before.logB {b : Bool} {ds : List Deferred} {p : Proc} (e : Event)
    (he : early b e = true) (h : Before b ds p) : Before b ds (log e p) := by
  refine ⟨?_, h.exited, h.panicking, h.st, h.defers⟩
  intro x hx
  rcases List.mem_append.mp hx with h1 | h1
  · exact h.events x h1
  · rw [List.mem_singleton.mp h1]
    exact he

theorem Before.setMatcher {b : Bool} {ds : List Deferred} {p : Proc} (m : Int)
    (h : Before b ds p) : Before b ds { p with matcher := m } :=
  ⟨h.events, h.exited, h.panicking, h.st, h.defers⟩

theorem Before.setDefers {b : Bool} {ds : List Deferred} {p : Proc} (ds1 : List Deferred)
    (h : Before b ds p) : Before b ds1 { p with defers := ds1 } :=
  ⟨h.events, h.exited, h.panicking, h.st, rfl⟩

theorem Before.ended {b : Bool} {ds : List Deferred} {p : Proc} (h : Before b ds p)
    (hds : ds = [Deferred.exit] ∨ ds = [Deferred.handler, Deferred.exit]) : Ended b p :=
  ⟨h.events, h.exited, by rw [h.defers]; exact hds⟩

theorem Ended.logE {b : Bool} {p : Proc} (e : Event) (he : early b e = true)
    (h : Ended b p) : Ended b (log e p) := by
  refine ⟨?_, h.exited, h.defers⟩
  intro x hx
  rcases List.mem_append.mp hx with h1 | h1
  · exact h.events x h1
  · rw [List.mem_singleton.mp h1]
    exact he

theorem Ended.raise {b : Bool} {p : Proc} (v : GoString) (h : Ended b p) :
    Ended b (raise (PanicVal.value v) p) := by
  refine ⟨?_, h.exited, h.defers⟩
  intro x hx
  rcases List.mem_append.mp hx with h1 | h1
  · exact h.events x h1
  · rw [List.mem_singleton.mp h1]
    rfl

theorem Ended.setSt {b : Bool} {p : Proc} (s : Int) (h : Ended b p) :
    Ended b { p with st := s } :=
  ⟨h.events, h.exited, h.defers⟩

theorem chooseCase_reach (env : Env) (opts : cmdOptions) (inp : Input) (b : Bool)
    (p : Proc) (h : Before b [Deferred.handler, Deferred.exit] p) :
    Ended b (chooseCase env opts inp p) ∨
      ∃ p1, chooseCase env opts inp p = setupTerminal env opts inp p1 ∧
        Before b [Deferred.handler, Deferred.exit] p1 ∧
        p1.matcher = if opts.NoIgnoreCase then env.CaseSensitiveMatch else p.matcher := by
  unfold chooseCase invoke
  split
  · rename_i hn
    split
    · left
      exact ((h.ended (Or.inr rfl)).logE _ (by rfl)).raise _
    · right
      exact ⟨_, rfl, (h.logB _ (by rfl)).setMatcher _, by simp [hn]⟩
  · rename_i hn
    right
    exact ⟨p, rfl, h, by simp [hn]⟩

theorem configure_reach (env : Env) (opts : cmdOptions) (rcfile : GoString) (inp : Input)
    (b : Bool) (p : Proc) (h : Before b [Deferred.handler, Deferred.exit] p) :
    Ended b (configure env opts rcfile inp p) ∨
      ∃ p1, configure env opts rcfile inp p = setupTerminal env opts inp p1 ∧
        Before b [Deferred.handler, Deferred.exit] p1 ∧
        p1.matcher =
          if opts.NoIgnoreCase then env.CaseSensitiveMatch
          else if rcfile = [] then env.IgnoreCaseMatch
          else (env.readConfig rcfile env.IgnoreCaseMatch).1 := by
  have h1 := (h.logB (Event.call (Call.setCurrentMatcher env.IgnoreCaseMatch)) rfl).setMatcher
    env.IgnoreCaseMatch
  unfold configure invoke
  split
  · left
    exact ((h.ended (Or.inr rfl)).logE _ (by rfl)).raise _
  · dsimp only
    split
    · rename_i hrc
      split
      · left
        exact ((h1.ended (Or.inr rfl)).logE _ (by rfl)).raise _
      · try dsimp only
        split
        · left
          exact ((h1.logB (Event.call (Call.readConfig rcfile)) rfl).ended (Or.inr rfl)).setSt 1
            |>.logE _ (by rfl)
        · rename_i m hm
          rcases chooseCase_reach env opts inp b _
            ((h1.logB (Event.call (Call.readConfig rcfile)) rfl).setMatcher m) with
            h2 | ⟨p1, h2, h3, h4⟩
          · exact Or.inl h2
          · refine Or.inr ⟨p1, h2, h3, ?_⟩
            rw [h4]
            have hm1 : (env.readConfig rcfile env.IgnoreCaseMatch).1 = m := by
              simp only [Peco.log] at hm
              rw [hm]
            simp [hrc, hm1]
    · rename_i hrc
      have hrc1 : rcfile = [] := by simpa using hrc
      rcases chooseCase_reach env opts inp b _ h1 with h2 | ⟨p1, h2, h3, h4⟩
      · exact Or.inl h2
      · refine Or.inr ⟨p1, h2, h3, ?_⟩
        rw [h4]
        simp [hrc1]

theorem Before.pushDefer {b : Bool} {ds : List Deferred} {p : Proc} (m : Int) (d : Deferred)
    (h : Before b ds p) :
    Before b (d :: ds) { p with matcher := m, defers := d :: p.defers } :=
  ⟨h.events, h.exited, h.panicking, h.st, by simp [h.defers]⟩

theorem withCtx_reach (env : Env) (opts : cmdOptions) (inp : Input) (b : Bool)
    (p : Proc) (h : Before b [Deferred.exit] p) :
    Ended b (withCtx env opts inp p) ∨
      ∃ p1, withCtx env opts inp p = setupTerminal env opts inp p1 ∧
        Before b [Deferred.handler, Deferred.exit] p1 ∧
        p1.matcher = matcherRule env opts := by
  have h1 := (h.logB (Event.call (Call.newCtx opts.ContextSep opts.BufferSize))
    (by rfl)).pushDefer env.initialMatcher Deferred.handler
  unfold withCtx invoke
  split
  · left
    exact ((h.ended (Or.inl rfl)).logE _ (by rfl)).raise _
  · try dsimp only
    split
    · rename_i hrc
      split
      · left
        exact ((h1.ended (Or.inr rfl)).logE _ (by rfl)).raise _
      · try dsimp only
        split
        · rename_i file hf
          rcases configure_reach env opts file inp b _
            (h1.logB (Event.call Call.locateRcfile) (by rfl)) with h2 | ⟨p1, h2, h3, h4⟩
          · exact Or.inl h2
          · refine Or.inr ⟨p1, h2, h3, ?_⟩
            rw [h4]
            simp [matcherRule, settingsFile, hrc, hf]
        · rename_i e hf
          rcases configure_reach env opts opts.Rcfile inp b _
            (h1.logB (Event.call Call.locateRcfile) (by rfl)) with h2 | ⟨p1, h2, h3, h4⟩
          · exact Or.inl h2
          · refine Or.inr ⟨p1, h2, h3, ?_⟩
            rw [h4]
            simp [matcherRule, settingsFile, hrc, hf]
    · rename_i hrc
      rcases configure_reach env opts opts.Rcfile inp b _ h1 with h2 | ⟨p1, h2, h3, h4⟩
      · exact Or.inl h2
      · refine Or.inr ⟨p1, h2, h3, ?_⟩
        rw [h4]
        simp [matcherRule, settingsFile, hrc]

theorem openInput_reach (env : Env) (opts : cmdOptions) (args : List GoString) (b : Bool)
    (hb : args = [] → b = false) (p : Proc) (h : Before b [Deferred.exit] p) :
    Ended b (openInput env opts args p) ∨
      ∃ p1, openInput env opts args p = setupTerminal env opts (inputOf args) p1 ∧
        Before b [Deferred.handler, Deferred.exit] p1 ∧
        p1.matcher = matcherRule env opts := by
  cases args with
  | nil =>
    have hb1 : b = false := hb rfl
    subst hb1
    unfold openInput invoke
    try dsimp only
    split
    · left
      exact ((h.ended (Or.inl rfl)).logE _ (by rfl)).raise _
    · try dsimp only
      split
      · exact withCtx_reach env opts Input.stdin false _
          (h.logB (Event.call Call.isTtyStdin) (by rfl))
      · left
        exact (((h.ended (Or.inl rfl)).logE (Event.call Call.isTtyStdin) (by rfl)).logE _
          (by rfl)).setSt 1
  | cons path rest =>
    unfold openInput invoke
    try dsimp only
    split
    · left
      exact ((h.ended (Or.inl rfl)).logE _ (by rfl)).raise _
    · try dsimp only
      split
      · left
        exact (((h.ended (Or.inl rfl)).logE (Event.call (Call.osOpen path)) (by rfl)).setSt 1).logE
          _ (by rfl)
      · exact withCtx_reach env opts (Input.file path) b _
          (h.logB (Event.call (Call.osOpen path)) (by rfl))

theorem parseFlags_reach (env : Env) (p : Proc)
    (h : Before (fileGiven env) [Deferred.exit] p) :
    Ended (fileGiven env) (parseFlags env p) ∨
      ∃ opts args p1, env.parse = Except.ok (opts, args) ∧
        parseFlags env p = setupTerminal env opts (inputOf args) p1 ∧
        Before (fileGiven env) [Deferred.handler, Deferred.exit] p1 ∧
        p1.matcher = matcherRule env opts := by
  have h0 := (h.ended (Or.inl rfl)).logE (Event.call Call.parse) (by rfl)
  unfold parseFlags invoke
  split
  · left
    exact h0.raise _
  · try dsimp only
    split
    · left
      exact ((h0.logE _ (by rfl)).logE _ (by rfl)).setSt 1
    · rename_i opts args hp
      split
      · left
        exact h0.logE _ (by rfl)
      · split
        · left
          exact h0.logE _ (by rfl)
        · have hb : args = [] → fileGiven env = false := by
            intro ha
            simp [fileGiven, hp, ha]
          rcases openInput_reach env opts args (fileGiven env) hb _
            (h.logB (Event.call Call.parse) (by rfl)) with h2 | ⟨p1, h2, h3, h4⟩
          · exact Or.inl h2
          · exact Or.inr ⟨opts, args, p1, hp, h2, h3, h4⟩

/-- Every run of the body either ends before terminal setup, or continues
with terminal setup from a state that has not failed, with the matcher the
rule selects. -/
theorem mainBody_reach (env : Env) :
    Ended (fileGiven env) (mainBody env initial) ∨
      ∃ opts args p1, env.parse = Except.ok (opts, args) ∧
        mainBody env initial = setupTerminal env opts (inputOf args) p1 ∧
        Before (fileGiven env) [Deferred.handler, Deferred.exit] p1 ∧
        p1.matcher = matcherRule env opts := by
  have h0 : Before (fileGiven env) [Deferred.exit] initial :=
    ⟨by simp [initial], rfl, rfl, rfl, rfl⟩
  unfold mainBody
  split
  · exact parseFlags_reach env _ (h0.logB _ (by rfl))
  · exact parseFlags_reach env _ h0

/-! ## Lines 147-179 -/

theorem panic_mem_raise (v : PanicVal) (p : Proc) : Event.panic v ∈ (raise v p).trace := by
  simp [raise]

theorem starting_working (inp : Input) (m : Int) (e : Event)
    (h : starting inp m e = true) : working inp m e = true := by
  unfold working
  split <;> first | rfl | exact h

theorem Working.logW {inp : Input} {p0 p : Proc} (e : Event)
    (he : starting inp p0.matcher e = true) (h : Working inp p0 p) :
    Working inp p0 (log e p) := by
  refine ⟨?_, h.exited, h.panicking, h.defers, h.matcher⟩
  intro x hx
  rcases List.mem_append.mp hx with h1 | h1
  · exact h.events x h1
  · rw [List.mem_singleton.mp h1]
    exact Or.inr he

theorem Working.invokeW {env : Env} {inp : Input} {p0 p : Proc} (c : Call)
    (k : Proc → Proc) (hc : starting inp p0.matcher (Event.call c) = true)
    (h : Working inp p0 p) (hk : ∀ p1, Working inp p0 p1 → Worked env inp p0 (k p1)) :
    Worked env inp p0 (invoke env c p k) := by
  unfold Peco.invoke
  split
  · refine ⟨?_, h.exited, h.defers, Or.inl ⟨_, panic_mem_raise _ _⟩⟩
    intro x hx
    simp only [raise, Peco.log, List.mem_append, List.mem_singleton] at hx
    rcases hx with (h1 | h1) | h1
    · rcases h.events x h1 with h2 | h2
      · exact Or.inl h2
      · exact Or.inr (starting_working _ _ _ h2)
    · rw [h1]
      exact Or.inr (starting_working _ _ _ hc)
    · rw [h1]
      exact Or.inr rfl
  · exact hk _ (h.logW _ hc)

theorem waitAndRead_worked (env : Env) (inp : Input) (p0 p : Proc)
    (h : Working inp p0 p) : Worked env inp p0 (waitAndRead env p) := by
  unfold waitAndRead Peco.invoke
  split
  · refine ⟨?_, h.exited, h.defers, Or.inl ⟨_, panic_mem_raise _ _⟩⟩
    intro x hx
    simp only [raise, Peco.log, List.mem_append, List.mem_singleton] at hx
    rcases hx with (h1 | h1) | h1
    · rcases h.events x h1 with h2 | h2
      · exact Or.inl h2
      · exact Or.inr (starting_working _ _ _ h2)
    · rw [h1]
      exact Or.inr rfl
    · rw [h1]
      exact Or.inr rfl
  · refine ⟨?_, h.exited, h.defers, Or.inr ⟨h.panicking, rfl, p.trace, ?_, h.events⟩⟩
    · intro x hx
      simp only [Peco.log, List.mem_append, List.mem_singleton] at hx
      rcases hx with (h1 | h1) | h1
      · rcases h.events x h1 with h2 | h2
        · exact Or.inl h2
        · exact Or.inr (starting_working _ _ _ h2)
      · rw [h1]
        exact Or.inr rfl
      · rw [h1]
        exact Or.inr rfl
    · simp [Peco.log]

theorem seedQuery_worked (env : Env) (opts : cmdOptions) (inp : Input) (p0 p : Proc)
    (h : Working inp p0 p) : Worked env inp p0 (seedQuery env opts p) := by
  unfold seedQuery
  split
  · exact h.invokeW _ _ (by rfl) fun p1 h1 =>
      h1.invokeW _ _ (by rfl) fun p2 h2 => waitAndRead_worked env inp p0 p2 h2
  · exact h.invokeW _ _ (by rfl) fun p1 h1 => waitAndRead_worked env inp p0 p1 h1

theorem startLoopers_worked (env : Env) (inp : Input) (p0 : Proc) (k : Proc → Proc)
    (hk : ∀ p1, Working inp p0 p1 → Worked env inp p0 (k p1)) (ws : List Worker) (p : Proc)
    (h : Working inp p0 p) : Worked env inp p0 (startLoopers env ws p k) := by
  induction ws generalizing p with
  | nil => exact hk p h
  | cons w ws ih =>
    unfold startLoopers
    refine h.invokeW _ _ (by simp [starting]) fun p1 h1 => ?_
    exact ih _ (h1.logW _ (by simp [starting, h1.matcher]))

theorem createWorkers_worked (env : Env) (opts : cmdOptions) (inp : Input) (p0 p : Proc)
    (h : Working inp p0 p) : Worked env inp p0 (createWorkers env opts inp p) := by
  unfold createWorkers
  exact h.invokeW _ _ (by rfl) fun p1 h1 =>
    h1.invokeW _ _ (by rfl) fun p2 h2 =>
    h2.invokeW _ _ (by rfl) fun p3 h3 =>
    h3.invokeW _ _ (by simp [starting]) fun p4 h4 =>
    h4.invokeW _ _ (by rfl) fun p5 h5 =>
    startLoopers_worked env inp p0 _ (fun q hq => seedQuery_worked env opts inp p0 q hq) _ p5 h5

/-- Lines 147-179 keep the deferred calls and add only events of creating,
starting and waiting for the workers; when no call panics the exit status is
read right after `WaitDone` returned. -/
theorem runWorkers_worked (env : Env) (opts : cmdOptions) (inp : Input) (p : Proc) :
    Worked env inp p (runWorkers env opts inp p) := by
  have h : Working inp p p := ⟨fun e he => Or.inl he, rfl, rfl, rfl, rfl⟩
  unfold runWorkers
  split
  · exact h.invokeW _ _ (by rfl) fun p1 h1 => createWorkers_worked env opts inp p p1 h1
  · exact createWorkers_worked env opts inp p p h

/-! ## Terminal setup and the deferred calls -/

/-- The five ways terminal setup (lines 131-145) can go. -/
theorem setupTerminal_cases (env : Env) (opts : cmdOptions) (inp : Input) (p : Proc) :
    (∃ v, env.panicAt p.trace.length Call.ttyReady = some v ∧
        setupTerminal env opts inp p =
          raise (PanicVal.value v) (log (Event.call Call.ttyReady) p)) ∨
    (∃ err, env.ttyReady = some err ∧
        setupTerminal env opts inp p =
          log (Event.stderr (StderrMsg.error err))
            { log (Event.call Call.ttyReady) p with st := 1 }) ∨
    (∃ n v, env.ttyReady = none ∧ env.panicAt n Call.termboxInit = some v ∧
        setupTerminal env opts inp p =
          raise (PanicVal.value v) (log (Event.call Call.termboxInit)
            { log (Event.call Call.ttyReady) p with
              defers := Deferred.ttyTerm :: p.defers })) ∨
    (∃ err, env.ttyReady = none ∧ env.termboxInit = some err ∧
        setupTerminal env opts inp p =
          log (Event.stderr (StderrMsg.error err))
            { log (Event.call Call.termboxInit)
                { log (Event.call Call.ttyReady) p with
                  defers := Deferred.ttyTerm :: p.defers } with st := 1 }) ∨
    (env.ttyReady = none ∧ env.termboxInit = none ∧
        setupTerminal env opts inp p =
          runWorkers env opts inp
            { log (Event.call Call.termboxInit)
                { log (Event.call Call.ttyReady) p with
                  defers := Deferred.ttyTerm :: p.defers } with
              defers := Deferred.termboxClose :: Deferred.ttyTerm :: p.defers }) := by
  unfold setupTerminal invoke
  split
  · rename_i v hv
    exact Or.inl ⟨v, hv, rfl⟩
  · dsimp only
    split
    · rename_i err herr
      exact Or.inr (Or.inl ⟨err, herr, rfl⟩)
    · rename_i herr
      split
      · rename_i v hv
        exact Or.inr (Or.inr (Or.inl ⟨_, v, herr, hv, rfl⟩))
      · try dsimp only
        split
        · rename_i err1 herr1
          exact Or.inr (Or.inr (Or.inr (Or.inl ⟨err1, herr, herr1, rfl⟩)))
        · rename_i herr1
          exact Or.inr (Or.inr (Or.inr (Or.inr ⟨herr, herr1, rfl⟩)))

theorem deferring_mono (ds1 ds2 : List Deferred) (h : ∀ d ∈ ds1, d ∈ ds2) (e : Event)
    (he : deferring ds1 e = true) : deferring ds2 e = true := by
  unfold deferring at he ⊢
  split at he <;> simp_all

theorem panicTail_deferring (env : Env) (n : Nat) (c : Call) (ds : List Deferred) :
    ∀ e ∈ panicTail env n c, deferring ds e = true := by
  unfold panicTail
  split <;> simp [deferring]

theorem emitEvents_deferring (ls : List GoString) :
    ∀ e ∈ emitEvents ls, deferring [Deferred.handler] e = true := by
  intro e he
  rcases emitEvents_kind ls e he with h | h
  · cases e <;> simp_all [isStdout, deferring]
  · cases e <;> simp_all [isPanic, deferring]

theorem runDeferred_events (env : Env) (d : Deferred) (p : Proc) :
    ∀ e ∈ (runDeferred env d p).trace, e ∈ p.trace ∨ deferring [d] e = true := by
  intro e he
  cases d with
  | exit =>
    simp only [runDeferred, log, List.mem_append, List.mem_singleton] at he
    rcases he with h | h
    · exact Or.inl h
    · rw [h]
      exact Or.inr rfl
  | handler =>
    simp only [runDeferred, handler_eq, List.mem_append, List.mem_cons] at he
    rcases he with (h | h) | h | h | h
    · exact Or.inl h
    · right
      cases hp : p.panicking <;> simp_all [recoverEvents, deferring]
      rcases h with rfl | rfl <;> rfl
    · rw [h]
      exact Or.inr rfl
    · exact Or.inr (panicTail_deferring env _ _ _ e h)
    · right
      unfold emitAfter at h
      split at h
      · simp at h
      · exact emitEvents_deferring _ e h
  | ttyTerm =>
    simp only [runDeferred, invoke_id, List.mem_append, List.mem_cons] at he
    rcases he with h | h | h
    · exact Or.inl h
    · rw [h]
      exact Or.inr rfl
    · exact Or.inr (panicTail_deferring env _ _ _ e h)
  | termboxClose =>
    simp only [runDeferred, invoke_id, List.mem_append, List.mem_cons] at he
    rcases he with h | h | h
    · exact Or.inl h
    · rw [h]
      exact Or.inr rfl
    · exact Or.inr (panicTail_deferring env _ _ _ e h)

/-- The deferred calls add only their own events. -/
theorem runDefers_events (env : Env) (ds : List Deferred) (p : Proc) :
    ∀ e ∈ (runDefers env ds p).trace, e ∈ p.trace ∨ deferring ds e = true := by
  induction ds generalizing p with
  | nil =>
    intro e he
    unfold runDefers at he
    split at he <;>
      · simp only [log, List.mem_append, List.mem_singleton] at he
        rcases he with h | h
        · exact Or.inl h
        · rw [h]
          exact Or.inr rfl
  | cons d ds ih =>
    intro e he
    unfold runDefers at he
    dsimp only at he
    have hstep : ∀ x ∈ (runDeferred env d p).trace,
        x ∈ p.trace ∨ deferring (d :: ds) x = true := by
      intro x hx
      rcases runDeferred_events env d p x hx with h | h
      · exact Or.inl h
      · exact Or.inr (deferring_mono [d] (d :: ds) (by simp) x h)
    split at he
    · exact hstep e he
    · rcases ih _ e he with h | h
      · exact hstep e h
      · exact Or.inr (deferring_mono ds (d :: ds) (fun x hx => List.mem_cons_of_mem _ hx) e h)

theorem runDeferred_keeps (env : Env) (d : Deferred) (p : Proc) :
    ∀ e ∈ p.trace, e ∈ (runDeferred env d p).trace := by
  intro e he
  cases d <;> simp [runDeferred, handler_eq, invoke_id, log, he]

/-- The deferred calls keep the events of the body. -/
theorem runDefers_keeps (env : Env) (ds : List Deferred) (p : Proc) :
    ∀ e ∈ p.trace, e ∈ (runDefers env ds p).trace := by
  induction ds generalizing p with
  | nil =>
    intro e he
    unfold runDefers
    split <;> simp [log, he]
  | cons d ds ih =>
    intro e he
    unfold runDefers
    dsimp only
    split
    · exact runDeferred_keeps env d p e he
    · exact ih _ e (runDeferred_keeps env d p e he)

/-- With `os.Exit` among the deferred calls the process exits, with the value
of `st` at the end of the body or with the 1 the handler sets. -/
theorem runDefers_exited (env : Env) (ds : List Deferred) (p : Proc)
    (hx : p.exited = none) (hex : Deferred.exit ∈ ds) :
    ∃ s, (runDefers env ds p).exited = some s ∧ (s = p.st ∨ s = 1) := by
  induction ds generalizing p with
  | nil => simp at hex
  | cons d ds ih =>
    unfold runDefers
    dsimp only
    cases d with
    | exit => exact ⟨p.st, by simp [runDeferred, log], Or.inl rfl⟩
    | handler =>
      have hex1 : Deferred.exit ∈ ds := by simpa using hex
      have h1 : (runDeferred env Deferred.handler p).exited = none := by
        simp [runDeferred, handler_eq, hx]
      obtain ⟨s, hs, hs1⟩ := ih _ h1 hex1
      refine ⟨s, by simp [h1, hs], ?_⟩
      rcases hs1 with h | h
      · simp only [runDeferred, handler_eq] at h
        by_cases hp : p.panicking.isSome = true
        · simp [hp] at h
          exact Or.inr h
        · simp [hp] at h
          exact Or.inl h
      · exact Or.inr h
    | ttyTerm =>
      have hex1 : Deferred.exit ∈ ds := by simpa using hex
      have h1 : (runDeferred env Deferred.ttyTerm p).exited = none := by
        simp [runDeferred, invoke_id, hx]
      obtain ⟨s, hs, hs1⟩ := ih _ h1 hex1
      exact ⟨s, by simp [h1, hs], by simpa [runDeferred, invoke_id] using hs1⟩
    | termboxClose =>
      have hex1 : Deferred.exit ∈ ds := by simpa using hex
      have h1 : (runDeferred env Deferred.termboxClose p).exited = none := by
        simp [runDeferred, invoke_id, hx]
      obtain ⟨s, hs, hs1⟩ := ih _ h1 hex1
      exact ⟨s, by simp [h1, hs], by simpa [runDeferred, invoke_id] using hs1⟩

theorem runDefers_exit (env : Env) (p : Proc) :
    runDefers env [Deferred.exit] p = { log (Event.exit p.st) p with exited := some p.st } := by
  simp [runDefers, runDeferred, log]

theorem runDefers_handler (env : Env) (p : Proc) (hx : p.exited = none) :
    runDefers env [Deferred.handler, Deferred.exit] p =
      runDeferred env Deferred.exit (handler env p) := by
  simp [runDefers, runDeferred, handler_eq, log, hx]

theorem runDefers_ttyTerm (env : Env) (p : Proc) (hx : p.exited = none) :
    runDefers env [Deferred.ttyTerm, Deferred.handler, Deferred.exit] p =
      runDeferred env Deferred.exit (handler env (invoke env Call.ttyTerm p id)) := by
  simp [runDefers, runDeferred, handler_eq, invoke_id, log, hx]

theorem runDefers_full (env : Env) (p : Proc) (hx : p.exited = none) :
    runDefers env
        [Deferred.termboxClose, Deferred.ttyTerm, Deferred.handler, Deferred.exit] p =
      runDeferred env Deferred.exit
        (handler env (invoke env Call.ttyTerm (invoke env Call.termboxClose p id) id)) := by
  simp [runDefers, runDeferred, handler_eq, invoke_id, log, hx]

/-! ## The claims -/

theorem emitEvents_nonempty (ls : List GoString) (h : ∀ l ∈ ls, l ≠ []) :
    emitEvents ls = (ls.map fun l => Event.stdout (normalise l)) ∧ emitPanic ls = none := by
  induction ls with
  | nil => simp [emitEvents, emitPanic]
  | cons l ls ih =>
    have hl : l ≠ [] := h l (List.mem_cons_self _ _)
    obtain ⟨h1, h2⟩ := ih fun x hx => h x (List.mem_cons_of_mem _ hx)
    have he : l.isEmpty = false := by
      cases l with
      | nil => exact absurd rfl hl
      | cons a t => rfl
    refine ⟨by simp [emitEvents, hl, h1], ?_⟩
    unfold emitPanic at h2 ⊢
    simp only [List.any_cons, he, Bool.false_or]
    exact h2

theorem writes_recoverEvents (pk : Option PanicVal) : writes (recoverEvents pk) = [] := by
  cases pk <;> rfl

/-- C1: when `Result()` returns an Output Set whose texts are all non-empty,
the deferred emit step writes to standard output, after whatever was written
before, exactly one text per line in Result order: the line's text unchanged
when it ends in a newline and with one newline appended otherwise. Every
written text ends in a newline and the step ends without a panic. -/
theorem emit_writes_normalised_lines (env : Env) (p : Proc)
    (hret : ∀ n, env.panicAt n Call.result = none)
    (hne : ∀ l ∈ outputSet env, l ≠ []) :
    writes (handler env p).trace = writes p.trace ++ (outputSet env).map normalise ∧
    stdoutOf (handler env p).trace =
      stdoutOf p.trace ++ ((outputSet env).map normalise).flatten ∧
    (∀ l ∈ outputSet env, (normalise l).getLast? = some NL ∧
      (normalise l = l ∨ normalise l = l ++ [NL])) ∧
    (handler env p).panicking = none := by
  obtain ⟨h1, h2⟩ := emitEvents_nonempty (outputSet env) hne
  have hw : writes (handler env p).trace = writes p.trace ++ (outputSet env).map normalise := by
    rw [handler_eq]
    simp only [panicTail, emitAfter, hret, h1, List.nil_append]
    rw [writes_append, writes_append, writes_recoverEvents]
    simp [writes, writes_map_stdout]
  refine ⟨hw, ?_, ?_, ?_⟩
  · simp [stdoutOf, hw]
  · intro l _
    refine ⟨normalise_last l, ?_⟩
    unfold normalise
    split
    · exact Or.inl rfl
    · exact Or.inr rfl
  · rw [handler_eq]
    simp [panicAfter, hret, h2]

theorem emit_writes_normalised_lines_witness :
    writes (handler envTwoLines initial).trace =
        writes initial.trace ++ (outputSet envTwoLines).map normalise ∧
      (outputSet envTwoLines).map normalise = [[97, 10], [98, 10]] :=
  ⟨(emit_writes_normalised_lines envTwoLines initial (fun _ => rfl) (by decide)).1,
    by decide⟩

/-- C2: when flag parsing succeeds and the help flag or the version flag is
set, `main` exits with status 0 and its whole run is: the flag parsing, one
message on standard error, the exit. No input source is opened or probed, no
coordinator context is created, the terminal is not initialised, no worker is
created or started, whatever the other flags, the arguments and the state of
standard input are. With the help flag set the message is the help text, also
when the version flag is set too. -/
theorem help_or_version_exits_zero (env : Env) (opts : cmdOptions) (args : List GoString)
    (hp : env.parse = Except.ok (opts, args))
    (hret : ∀ n, env.panicAt n Call.parse = none)
    (hq : opts.Help = true ∨ opts.Version = true) :
    (main env).exited = some 0 ∧
    (main env).trace = parsed env ++
      [Event.stderr (if opts.Help then StderrMsg.help else StderrMsg.version),
        Event.exit 0] ∧
    (∀ e ∈ (main env).trace, pastFlags e = false) ∧
    (opts.Help = true → Event.stderr StderrMsg.version ∉ (main env).trace) := by
  have hm : main env =
      { initial with
        trace := parsed env ++
          [Event.stderr (if opts.Help then StderrMsg.help else StderrMsg.version),
            Event.exit 0]
        exited := some 0 } := by
    unfold main mainBody parseFlags invoke parsed
    by_cases hg : env.GOMAXPROCS = [] <;> by_cases hh : opts.Help = true
    · simp [hg, hh, hp, hret, initial, log, runDefers, runDeferred]
    · have hv : opts.Version = true := by simpa [hh] using hq
      simp [hg, hh, hv, hp, hret, initial, log, runDefers, runDeferred]
    · simp [hg, hh, hp, hret, initial, log, runDefers, runDeferred]
    · have hv : opts.Version = true := by simpa [hh] using hq
      simp [hg, hh, hv, hp, hret, initial, log, runDefers, runDeferred]
  rw [hm]
  refine ⟨rfl, rfl, ?_, ?_⟩
  · intro e he
    simp only [parsed, List.mem_append, List.mem_cons, List.mem_singleton] at he
    rcases he with (he | he) | he | he
    · split at he
      · rw [List.mem_singleton.mp he]
        rfl
      · simp at he
    · simp at he
      rw [he]
      rfl
    · rw [he]
      rfl
    · simp at he
      rw [he]
      rfl
  · intro hh
    simp only [parsed, hh]
    split <;> simp

theorem help_or_version_exits_zero_witness :
    (main envHelp).exited = some 0 ∧
      (main envHelp).trace = parsed envHelp ++ [Event.stderr StderrMsg.help, Event.exit 0] :=
  have h := help_or_version_exits_zero envHelp { opts0 with Help := true, Version := true } []
    rfl (fun _ => rfl) (Or.inl rfl)
  ⟨h.1, h.2.1⟩

/-- Every event of a run comes from the body or from the deferred calls the
body registered. -/
theorem mem_main (env : Env) (e : Event) (he : e ∈ (main env).trace) :
    e ∈ (mainBody env initial).trace ∨ deferring (mainBody env initial).defers e = true :=
  runDefers_events env _ _ e he

/-- Every event of a run is an early event, or one of the two terminal setup
calls, or an event of lines 147-179 for the input and the matcher the run
chose, or an event of the deferred calls. -/
theorem main_events (env : Env) (e : Event) (he : e ∈ (main env).trace) :
    early (fileGiven env) e = true ∨ e = Event.call Call.ttyReady ∨
      e = Event.call Call.termboxInit ∨
      (∃ opts args, env.parse = Except.ok (opts, args) ∧
        working (inputOf args) (matcherRule env opts) e = true) ∨
      deferring [Deferred.termboxClose, Deferred.ttyTerm, Deferred.handler, Deferred.exit] e
        = true := by
  rcases mem_main env _ he with h | h
  · rcases mainBody_reach env with hE | ⟨opts, args, p1, hp, hq, hB, hm⟩
    · exact Or.inl (hE.events _ h)
    · rw [hq] at h
      rcases setupTerminal_cases env opts (inputOf args) p1 with
        ⟨v, _, heq⟩ | ⟨err, _, heq⟩ | ⟨n, v, _, _, heq⟩ | ⟨err, _, _, heq⟩ | ⟨_, _, heq⟩
      · rw [heq] at h
        simp only [raise, log, List.mem_append, List.mem_singleton] at h
        rcases h with (h | h) | h
        · exact Or.inl (hB.events _ h)
        · exact Or.inr (Or.inl h)
        · rw [h]
          exact Or.inl rfl
      · rw [heq] at h
        simp only [raise, log, List.mem_append, List.mem_singleton] at h
        rcases h with (h | h) | h
        · exact Or.inl (hB.events _ h)
        · exact Or.inr (Or.inl h)
        · rw [h]
          exact Or.inl rfl
      · rw [heq] at h
        simp only [raise, log, List.mem_append, List.mem_singleton] at h
        rcases h with ((h | h) | h) | h
        · exact Or.inl (hB.events _ h)
        · exact Or.inr (Or.inl h)
        · exact Or.inr (Or.inr (Or.inl h))
        · rw [h]
          exact Or.inl rfl
      · rw [heq] at h
        simp only [raise, log, List.mem_append, List.mem_singleton] at h
        rcases h with ((h | h) | h) | h
        · exact Or.inl (hB.events _ h)
        · exact Or.inr (Or.inl h)
        · exact Or.inr (Or.inr (Or.inl h))
        · rw [h]
          exact Or.inl rfl
      · rw [heq] at h
        rcases (runWorkers_worked env opts (inputOf args) _).events _ h with h1 | h1
        · simp only [log, List.mem_append, List.mem_singleton] at h1
          rcases h1 with (h1 | h1) | h1
          · exact Or.inl (hB.events _ h1)
          · exact Or.inr (Or.inl h1)
          · exact Or.inr (Or.inr (Or.inl h1))
        · refine Or.inr (Or.inr (Or.inr (Or.inl ⟨opts, args, hp, ?_⟩)))
          rw [← hm]
          exact h1
  · refine Or.inr (Or.inr (Or.inr (Or.inr ?_)))
    have hsub : ∀ d ∈ (mainBody env initial).defers,
        d ∈ [Deferred.termboxClose, Deferred.ttyTerm, Deferred.handler, Deferred.exit] := by
      intro d _
      cases d <;> simp
    exact deferring_mono _ _ hsub e h

/-- C7: in every run in which flag parsing returned the options `opts`, every
worker is started with the matcher the rule selects: the case-sensitive one
whenever `--no-ignore-case` is set, whatever the settings file selected; the
case-insensitive one when there is no settings file and the flag is not set;
otherwise what reading the settings file leaves selected, starting from the
case-insensitive default. -/
theorem matcher_at_worker_start (env : Env) (opts : cmdOptions) (args : List GoString)
    (hp : env.parse = Except.ok (opts, args)) (w : Worker) (m : Int)
    (hgo : Event.go w m ∈ (main env).trace) :
    m = matcherRule env opts ∧
    (opts.NoIgnoreCase = true → m = env.CaseSensitiveMatch) ∧
    (opts.NoIgnoreCase = false → settingsFile env opts = [] → m = env.IgnoreCaseMatch) ∧
    (opts.NoIgnoreCase = false → settingsFile env opts ≠ [] →
      m = (env.readConfig (settingsFile env opts) env.IgnoreCaseMatch).1) := by
  have key : m = matcherRule env opts := by
    rcases mem_main env _ hgo with h | h
    · rcases mainBody_reach env with hE | ⟨opts1, args1, p1, hp1, hq, hB, hm⟩
      · have := hE.events _ h
        simp [early] at this
      · rw [hp] at hp1
        injection hp1 with hp1
        injection hp1 with ho ha
        subst ho
        subst ha
        rw [hq] at h
        have hno : Event.go w m ∉ p1.trace := by
          intro hin
          have := hB.events _ hin
          simp [early] at this
        rcases setupTerminal_cases env opts (inputOf args) p1 with
          ⟨v, _, heq⟩ | ⟨err, _, heq⟩ | ⟨n, v, _, _, heq⟩ | ⟨err, _, _, heq⟩ | ⟨_, _, heq⟩
        · rw [heq] at h
          simp [raise, log, hno] at h
        · rw [heq] at h
          simp [raise, log, hno] at h
        · rw [heq] at h
          simp [raise, log, hno] at h
        · rw [heq] at h
          simp [raise, log, hno] at h
        · rw [heq] at h
          rcases (runWorkers_worked env opts (inputOf args) _).events _ h with h1 | h1
          · simp [log, hno] at h1
          · simp only [log, working, starting, decide_eq_true_eq] at h1
            rw [h1, hm]
    · simp [deferring] at h
  refine ⟨key, ?_, ?_, ?_⟩
  · intro hn
    rw [key]
    simp [matcherRule, hn]
  · intro hn hs
    rw [key]
    simp [matcherRule, hn, hs]
  · intro hn hs
    rw [key]
    simp [matcherRule, hn, hs]

theorem matcher_at_worker_start_witness :
    Event.go Worker.reader 0 ∈ (main env0).trace ∧ (0 : Int) = matcherRule env0 opts0 :=
  ⟨by decide, (matcher_at_worker_start env0 opts0 [] rfl Worker.reader 0 (by decide)).1⟩

/-! ## Events are never dropped -/

theorem keeps_log (e : Event) (p : Proc) : ∀ x ∈ p.trace, x ∈ (log e p).trace := by
  intro x hx
  simp [log, hx]

theorem invoke_keeps (env : Env) (c : Call) (p : Proc) (k : Proc → Proc)
    (hk : ∀ p1, ∀ x ∈ p1.trace, x ∈ (k p1).trace) :
    ∀ x ∈ p.trace, x ∈ (invoke env c p k).trace := by
  intro x hx
  unfold invoke
  split
  · simp [raise, log, hx]
  · exact hk _ x (keeps_log _ _ x hx)

theorem invoke_called (env : Env) (c : Call) (p : Proc) (k : Proc → Proc)
    (hk : ∀ p1, ∀ x ∈ p1.trace, x ∈ (k p1).trace) :
    Event.call c ∈ (invoke env c p k).trace := by
  unfold invoke
  split
  · simp [raise, log]
  · exact hk _ _ (by simp [log])

theorem waitAndRead_keeps (env : Env) (p : Proc) :
    ∀ x ∈ p.trace, x ∈ (waitAndRead env p).trace := by
  unfold waitAndRead
  apply invoke_keeps
  intro p1 y hy
  simp [log, hy]

theorem seedQuery_keeps (env : Env) (opts : cmdOptions) (p : Proc) :
    ∀ x ∈ p.trace, x ∈ (seedQuery env opts p).trace := by
  unfold seedQuery
  split
  · apply invoke_keeps
    intro p1
    apply invoke_keeps
    exact waitAndRead_keeps env
  · apply invoke_keeps
    exact waitAndRead_keeps env

theorem startLoopers_keeps (env : Env) (k : Proc → Proc)
    (hk : ∀ p1, ∀ x ∈ p1.trace, x ∈ (k p1).trace) (ws : List Worker) (p : Proc) :
    ∀ x ∈ p.trace, x ∈ (startLoopers env ws p k).trace := by
  induction ws generalizing p with
  | nil => exact hk p
  | cons w ws ih =>
    unfold startLoopers
    apply invoke_keeps
    intro p1 y hy
    exact ih _ y (keeps_log _ _ y hy)

theorem createWorkers_keeps (env : Env) (opts : cmdOptions) (inp : Input) (p : Proc) :
    ∀ x ∈ p.trace, x ∈ (createWorkers env opts inp p).trace := by
  unfold createWorkers
  apply invoke_keeps
  intro p1
  apply invoke_keeps
  intro p2
  apply invoke_keeps
  intro p3
  apply invoke_keeps
  intro p4
  apply invoke_keeps
  intro p5
  exact startLoopers_keeps env _ (seedQuery_keeps env opts) _ p5

theorem runWorkers_keeps (env : Env) (opts : cmdOptions) (inp : Input) (p : Proc) :
    ∀ x ∈ p.trace, x ∈ (runWorkers env opts inp p).trace := by
  unfold runWorkers
  split
  · apply invoke_keeps
    exact createWorkers_keeps env opts inp
  · exact createWorkers_keeps env opts inp p

theorem setupTerminal_keeps (env : Env) (opts : cmdOptions) (inp : Input) (p : Proc) :
    ∀ x ∈ p.trace, x ∈ (setupTerminal env opts inp p).trace := by
  intro x hx
  rcases setupTerminal_cases env opts inp p with
    ⟨v, _, heq⟩ | ⟨err, _, heq⟩ | ⟨n, v, _, _, heq⟩ | ⟨err, _, _, heq⟩ | ⟨_, _, heq⟩
  · rw [heq]
    simp [raise, log, hx]
  · rw [heq]
    simp [raise, log, hx]
  · rw [heq]
    simp [raise, log, hx]
  · rw [heq]
    simp [raise, log, hx]
  · rw [heq]
    apply runWorkers_keeps
    simp [log, hx]

theorem chooseCase_keeps (env : Env) (opts : cmdOptions) (inp : Input) (p : Proc) :
    ∀ x ∈ p.trace, x ∈ (chooseCase env opts inp p).trace := by
  unfold chooseCase
  split
  · apply invoke_keeps
    intro p1 y hy
    exact setupTerminal_keeps env opts inp _ y hy
  · exact setupTerminal_keeps env opts inp p

theorem configure_keeps (env : Env) (opts : cmdOptions) (rcfile : GoString) (inp : Input)
    (p : Proc) : ∀ x ∈ p.trace, x ∈ (configure env opts rcfile inp p).trace := by
  unfold configure
  apply invoke_keeps
  intro p1 y hy
  split
  · refine invoke_keeps env _ _ _ ?_ y hy
    intro p2 z hz
    dsimp only
    split
    · simp [log, hz]
    · exact chooseCase_keeps env opts inp _ z hz
  · exact chooseCase_keeps env opts inp _ y hy

theorem withCtx_keeps (env : Env) (opts : cmdOptions) (inp : Input) (p : Proc) :
    ∀ x ∈ p.trace, x ∈ (withCtx env opts inp p).trace := by
  unfold withCtx
  apply invoke_keeps
  intro p1 y hy
  dsimp only
  split
  · refine invoke_keeps env _ _ _ ?_ y hy
    intro p2 z hz
    dsimp only
    split
    · exact configure_keeps env opts _ inp _ z hz
    · exact configure_keeps env opts _ inp _ z hz
  · exact configure_keeps env opts _ inp _ y hy

theorem openInput_called (env : Env) (opts : cmdOptions) (path : GoString)
    (rest : List GoString) (p : Proc) :
    Event.call (Call.osOpen path) ∈ (openInput env opts (path :: rest) p).trace := by
  unfold openInput
  apply invoke_called
  intro p1 y hy
  dsimp only
  split
  · simp [log, hy]
  · exact withCtx_keeps env opts _ p1 y hy

theorem mainBody_openInput (env : Env) (opts : cmdOptions) (args : List GoString)
    (hp : env.parse = Except.ok (opts, args))
    (hret : ∀ n, env.panicAt n Call.parse = none)
    (hh : opts.Help = false) (hv : opts.Version = false) :
    mainBody env initial =
      openInput env opts args
        (log (Event.call Call.parse)
          (if env.GOMAXPROCS = [] then log (Event.call Call.setGOMAXPROCS) initial
            else initial)) := by
  unfold mainBody parseFlags invoke
  simp [hp, hret, hh, hv]

theorem main_no_input (env : Env) (opts : cmdOptions) (args : List GoString)
    (hp : env.parse = Except.ok (opts, args))
    (hret : ∀ n, env.panicAt n Call.parse = none)
    (hh : opts.Help = false) (hv : opts.Version = false) (hno : noInput env args) :
    main env =
      { initial with
        st := 1
        trace := parsed env ++ noInputEvents env args ++ [Event.exit 1]
        exited := some 1 } := by
  cases args with
  | nil =>
    obtain ⟨h1, h2⟩ := hno
    unfold main mainBody parseFlags openInput invoke parsed noInputEvents
    by_cases hg : env.GOMAXPROCS = [] <;>
      simp [hg, hh, hv, hp, hret, h1, h2, initial, log, runDefers, runDeferred]
  | cons path rest =>
    obtain ⟨h1, h2⟩ := hno
    obtain ⟨err, herr⟩ : ∃ err, env.osOpen path = some err := by
      cases ho : env.osOpen path with
      | none => exact absurd ho h2
      | some err => exact ⟨err, rfl⟩
    unfold main mainBody parseFlags openInput invoke parsed noInputEvents
    by_cases hg : env.GOMAXPROCS = [] <;>
      simp [hg, hh, hv, hp, hret, h1, herr, initial, log, runDefers, runDeferred]

/-- C3: in a run that is neither a help nor a version query, (1) when no input
stream can be obtained (opening the file argument fails, or there is no file
argument and standard input is a terminal) `main` exits with status 1 and its
whole run is: the flag parsing, the failed attempt, one message on standard
error, the exit; no coordinator context is created, the terminal is not
initialised and no worker is created or started; (2) when a file argument is
given, `os.Open` is called on it, standard input is never probed, and a
buffer reader, if one is created, reads the file. -/
theorem no_input_exits_one (env : Env) (opts : cmdOptions) (args : List GoString)
    (hp : env.parse = Except.ok (opts, args))
    (hret : ∀ n, env.panicAt n Call.parse = none)
    (hh : opts.Help = false) (hv : opts.Version = false) :
    (noInput env args →
      (main env).exited = some 1 ∧
      (main env).trace = parsed env ++ noInputEvents env args ++ [Event.exit 1] ∧
      (∀ e ∈ (main env).trace, pastInput e = false)) ∧
    (∀ path rest, args = path :: rest →
      Event.call (Call.osOpen path) ∈ (main env).trace ∧
      Event.call Call.isTtyStdin ∉ (main env).trace ∧
      ∀ i, Event.call (Call.newBufferReader i) ∈ (main env).trace → i = Input.file path) := by
  constructor
  · intro hno
    rw [main_no_input env opts args hp hret hh hv hno]
    refine ⟨rfl, rfl, ?_⟩
    intro e he
    simp only [parsed, List.mem_append, List.mem_cons, List.mem_singleton] at he
    rcases he with ((he | he) | he) | he
    · split at he
      · rw [List.mem_singleton.mp he]
        rfl
      · simp at he
    · simp at he
      rw [he]
      rfl
    · cases args with
      | nil =>
        simp only [noInputEvents, List.mem_cons, List.mem_singleton] at he
        rcases he with he | he | he
        · rw [he]
          rfl
        · rw [he]
          rfl
        · simp at he
      | cons path rest =>
        simp only [noInputEvents, List.mem_cons, List.mem_singleton] at he
        rcases he with he | he | he
        · rw [he]
          rfl
        · rw [he]
          rfl
        · simp at he
    · simp at he
      rw [he]
      rfl
  · intro path rest ha
    subst ha
    have hf : fileGiven env = true := by simp [fileGiven, hp]
    refine ⟨?_, ?_, ?_⟩
    · apply runDefers_keeps
      rw [mainBody_openInput env opts _ hp hret hh hv]
      exact openInput_called env opts path rest _
    · intro hin
      rcases main_events env _ hin with h | h | h | ⟨o, a, _, h⟩ | h
      · simp [early, hf] at h
      · simp at h
      · simp at h
      · simp [working, starting] at h
      · simp [deferring] at h
    · intro i hin
      rcases main_events env _ hin with h | h | h | ⟨o, a, hp1, h⟩ | h
      · simp [early] at h
      · simp at h
      · simp at h
      · rw [hp] at hp1
        injection hp1 with hp1
        injection hp1 with ho ha
        subst ha
        simpa [working, starting, inputOf] using h
      · simp [deferring] at h

theorem no_input_exits_one_witness :
    noInput envNoFile [[109]] ∧ (main envNoFile).exited = some 1 ∧
      Event.call (Call.osOpen [109]) ∈ (main envNoFile).trace ∧
      Event.call Call.isTtyStdin ∉ (main envNoFile).trace :=
  have h := no_input_exits_one envNoFile opts0 [[109]] rfl (fun _ => rfl) rfl rfl
  have hno : noInput envNoFile [[109]] := ⟨fun _ => rfl, by decide⟩
  ⟨hno, (h.1 hno).1, (h.2 [109] [] rfl).1, (h.2 [109] [] rfl).2.1⟩

theorem early_not_worker (b : Bool) (e : Event) (h : early b e = true) :
    isWorkerEvent e = false := by
  cases e with
  | call c => cases c <;> simp_all [early, isWorkerEvent]
  | _ => simp_all [early, isWorkerEvent]

theorem deferring_not_worker (ds : List Deferred) (e : Event) (h : deferring ds e = true) :
    isWorkerEvent e = false := by
  cases e with
  | call c => cases c <;> simp_all [deferring, isWorkerEvent]
  | _ => simp_all [deferring, isWorkerEvent]

/-- C6: when terminal setup fails (`TtyReady` returns an error, or
`termbox.Init` returns an error) `main` exits with status 1 and no worker is
created or started and no wait-group count is added. When it is
`termbox.Init` that failed `TtyTerm` is still run and `termbox.Close` is
not; when it is `TtyReady` that failed neither is run. -/
theorem terminal_setup_failure (env : Env) (h : ttyReadyFails env ∨ termboxInitFails env) :
    (main env).exited = some 1 ∧
    (∀ e ∈ (main env).trace, isWorkerEvent e = false) ∧
    (termboxInitFails env →
      Event.call Call.ttyTerm ∈ (main env).trace ∧
      Event.call Call.termboxClose ∉ (main env).trace) ∧
    (ttyReadyFails env →
      Event.call Call.ttyTerm ∉ (main env).trace ∧
      Event.call Call.termboxClose ∉ (main env).trace) := by
  have hcall : Event.call Call.ttyReady ∈ (main env).trace ∨
      Event.call Call.termboxInit ∈ (main env).trace := by
    rcases h with h | h
    · exact Or.inl h.1
    · exact Or.inr h.1
  rcases mainBody_reach env with hE | ⟨opts, args, p1, hp, hq, hB, hm⟩
  · exfalso
    rcases hcall with hc | hc <;>
      · rcases mem_main env _ hc with h1 | h1
        · have := hE.events _ h1
          simp [early] at this
        · simp [deferring] at h1
  · have hnoR : Event.call Call.ttyReady ∉ p1.trace := by
      intro hin
      have := hB.events _ hin
      simp [early] at this
    have hnoI : Event.call Call.termboxInit ∉ p1.trace := by
      intro hin
      have := hB.events _ hin
      simp [early] at this
    have hnoT : Event.call Call.ttyTerm ∉ p1.trace := by
      intro hin
      have := hB.events _ hin
      simp [early] at this
    have hnoC : Event.call Call.termboxClose ∉ p1.trace := by
      intro hin
      have := hB.events _ hin
      simp [early] at this
    rcases setupTerminal_cases env opts (inputOf args) p1 with
      ⟨v, hv, heq⟩ | ⟨err, herr, heq⟩ | ⟨n, v, herr, hv, heq⟩ | ⟨err, herr, herr1, heq⟩ |
        ⟨herr, herr1, heq⟩
    · -- `TtyReady` panics
      exfalso
      rcases h with h | h
      · rw [h.2.1] at hv
        exact Option.noConfusion hv
      · rcases mem_main env _ h.1 with h1 | h1
        · rw [hq, heq] at h1
          simp [raise, log, hnoI] at h1
        · simp [deferring] at h1
    · -- `TtyReady` returns an error
      have hnot : ¬ termboxInitFails env := by
        intro hi
        rcases mem_main env _ hi.1 with h1 | h1
        · rw [hq, heq] at h1
          simp [raise, log, hnoI] at h1
        · simp [deferring] at h1
      have hd : (mainBody env initial).defers = [Deferred.handler, Deferred.exit] := by
        rw [hq, heq]
        simpa [log] using hB.defers
      have hx : (mainBody env initial).exited = none := by
        rw [hq, heq]
        simpa [log] using hB.exited
      have hst : (mainBody env initial).st = 1 := by
        rw [hq, heq]
        rfl
      refine ⟨?_, ?_, fun hi => absurd hi hnot, fun _ => ⟨?_, ?_⟩⟩
      · obtain ⟨s, hs, hs1⟩ := runDefers_exited env (mainBody env initial).defers
          (mainBody env initial) hx (by rw [hd]; simp)
        rw [hst] at hs1
        have : s = 1 := by rcases hs1 with h | h <;> exact h
        rw [main, hs, this]
      · intro e he
        rcases mem_main env _ he with h1 | h1
        · rw [hq, heq] at h1
          simp only [log, List.mem_append, List.mem_singleton] at h1
          rcases h1 with (h1 | h1) | h1
          · exact early_not_worker _ _ (hB.events _ h1)
          · rw [h1]
            rfl
          · rw [h1]
            rfl
        · exact deferring_not_worker _ _ h1
      · intro hin
        rcases mem_main env _ hin with h1 | h1
        · rw [hq, heq] at h1
          simp [log, hnoT] at h1
        · rw [hd] at h1
          simp [deferring] at h1
      · intro hin
        rcases mem_main env _ hin with h1 | h1
        · rw [hq, heq] at h1
          simp [log, hnoC] at h1
        · rw [hd] at h1
          simp [deferring] at h1
    · -- `termbox.Init` panics
      exfalso
      rcases h with h | h
      · exact h.2.2 herr
      · rw [h.2.1] at hv
        exact Option.noConfusion hv
    · -- `termbox.Init` returns an error
      have hnot : ¬ ttyReadyFails env := fun ht => ht.2.2 herr
      have hd : (mainBody env initial).defers =
          [Deferred.ttyTerm, Deferred.handler, Deferred.exit] := by
        rw [hq, heq]
        simp [log, hB.defers]
      have hx : (mainBody env initial).exited = none := by
        rw [hq, heq]
        simpa [log] using hB.exited
      have hst : (mainBody env initial).st = 1 := by
        rw [hq, heq]
        rfl
      refine ⟨?_, ?_, fun _ => ⟨?_, ?_⟩, fun ht => absurd ht hnot⟩
      · obtain ⟨s, hs, hs1⟩ := runDefers_exited env (mainBody env initial).defers
          (mainBody env initial) hx (by rw [hd]; simp)
        rw [hst] at hs1
        have : s = 1 := by rcases hs1 with h | h <;> exact h
        rw [main, hs, this]
      · intro e he
        rcases mem_main env _ he with h1 | h1
        · rw [hq, heq] at h1
          simp only [log, List.mem_append, List.mem_singleton] at h1
          rcases h1 with ((h1 | h1) | h1) | h1
          · exact early_not_worker _ _ (hB.events _ h1)
          · rw [h1]
            rfl
          · rw [h1]
            rfl
          · rw [h1]
            rfl
        · exact deferring_not_worker _ _ h1
      · rw [main, hd, runDefers_ttyTerm env _ hx]
        simp [runDeferred, handler_eq, invoke_id, log]
      · intro hin
        rcases mem_main env _ hin with h1 | h1
        · rw [hq, heq] at h1
          simp [log, hnoC] at h1
        · rw [hd] at h1
          simp [deferring] at h1
    · -- the terminal is ready
      exfalso
      rcases h with h | h
      · exact h.2.2 herr
      · exact h.2.2 herr1

theorem terminal_setup_failure_witness :
    termboxInitFails envInitFails ∧ (main envInitFails).exited = some 1 ∧
      Event.call Call.ttyTerm ∈ (main envInitFails).trace :=
  have hf : termboxInitFails envInitFails := ⟨by decide, fun _ => rfl, by decide⟩
  have h := terminal_setup_failure envInitFails (Or.inr hf)
  ⟨hf, h.1, (h.2.2.1 hf).1⟩

/-- The run of the four deferred calls, in full. -/
theorem runDefers_full_trace (env : Env) (p : Proc) (hx : p.exited = none) :
    (runDefers env
        [Deferred.termboxClose, Deferred.ttyTerm, Deferred.handler, Deferred.exit] p).trace =
      p.trace ++ [Event.call Call.termboxClose] ++
        panicTail env p.trace.length Call.termboxClose ++ [Event.call Call.ttyTerm] ++
        (panicTail env (invoke env Call.termboxClose p id).trace.length Call.ttyTerm ++
          recoverEvents
            (invoke env Call.ttyTerm (invoke env Call.termboxClose p id) id).panicking) ++
        [Event.call Call.result] ++
        (panicTail env
            ((invoke env Call.ttyTerm (invoke env Call.termboxClose p id) id).trace ++
              recoverEvents
                (invoke env Call.ttyTerm (invoke env Call.termboxClose p id)
                  id).panicking).length
            Call.result ++
          emitAfter env
            ((invoke env Call.ttyTerm (invoke env Call.termboxClose p id) id).trace ++
              recoverEvents
                (invoke env Call.ttyTerm (invoke env Call.termboxClose p id)
                  id).panicking).length) ++
        [Event.exit
          (handler env (invoke env Call.ttyTerm (invoke env Call.termboxClose p id) id)).st] ∧
    (runDefers env
        [Deferred.termboxClose, Deferred.ttyTerm, Deferred.handler, Deferred.exit] p).exited =
      some (handler env (invoke env Call.ttyTerm (invoke env Call.termboxClose p id) id)).st := by
  rw [runDefers_full env p hx]
  constructor
  · simp only [runDeferred, log]
    rw [handler_eq]
    simp only [invoke_id, List.append_assoc, List.cons_append, List.nil_append,
      List.singleton_append]
  · simp [runDeferred, log]

/-- Either no worker is created in the run, and `termbox.Init`, if called,
panicked or returned an error; or the body reached line 147 in a state that
had not failed, with the four deferred calls registered. -/
theorem main_started_or_not (env : Env) :
    ((∀ e ∈ (main env).trace, isWorkerEvent e = false) ∧
      (Event.call Call.termboxInit ∈ (main env).trace →
        (∃ n v, env.panicAt n Call.termboxInit = some v) ∨ env.termboxInit ≠ none)) ∨
    ∃ opts args p2, env.parse = Except.ok (opts, args) ∧
      mainBody env initial = runWorkers env opts (inputOf args) p2 ∧
      p2.exited = none ∧ p2.panicking = none ∧ p2.st = 0 ∧
      p2.defers =
        [Deferred.termboxClose, Deferred.ttyTerm, Deferred.handler, Deferred.exit] ∧
      ∀ e ∈ p2.trace, early (fileGiven env) e = true ∨ e = Event.call Call.ttyReady ∨
        e = Event.call Call.termboxInit := by
  rcases mainBody_reach env with hE | ⟨opts, args, p1, hp, hq, hB, hm⟩
  · left
    constructor
    · intro e he
      rcases mem_main env _ he with h1 | h1
      · exact early_not_worker _ _ (hE.events _ h1)
      · exact deferring_not_worker _ _ h1
    · intro he
      rcases mem_main env _ he with h1 | h1
      · have := hE.events _ h1
        simp [early] at this
      · simp [deferring] at h1
  · have hnoI : Event.call Call.termboxInit ∉ p1.trace := by
      intro hin
      have := hB.events _ hin
      simp [early] at this
    rcases setupTerminal_cases env opts (inputOf args) p1 with
      ⟨v, hv, heq⟩ | ⟨err, herr, heq⟩ | ⟨n, v, herr, hv, heq⟩ | ⟨err, herr, herr1, heq⟩ |
        ⟨herr, herr1, heq⟩
    · left
      constructor
      · intro e he
        rcases mem_main env _ he with h1 | h1
        · rw [hq, heq] at h1
          simp only [raise, log, List.mem_append, List.mem_singleton] at h1
          rcases h1 with (h1 | h1) | h1
          · exact early_not_worker _ _ (hB.events _ h1)
          · rw [h1]
            rfl
          · rw [h1]
            rfl
        · exact deferring_not_worker _ _ h1
      · intro he
        rcases mem_main env _ he with h1 | h1
        · rw [hq, heq] at h1
          simp [raise, log, hnoI] at h1
        · simp [deferring] at h1
    · left
      constructor
      · intro e he
        rcases mem_main env _ he with h1 | h1
        · rw [hq, heq] at h1
          simp only [raise, log, List.mem_append, List.mem_singleton] at h1
          rcases h1 with (h1 | h1) | h1
          · exact early_not_worker _ _ (hB.events _ h1)
          · rw [h1]
            rfl
          · rw [h1]
            rfl
        · exact deferring_not_worker _ _ h1
      · intro he
        rcases mem_main env _ he with h1 | h1
        · rw [hq, heq] at h1
          simp [raise, log, hnoI] at h1
        · simp [deferring] at h1
    · left
      constructor
      · intro e he
        rcases mem_main env _ he with h1 | h1
        · rw [hq, heq] at h1
          simp only [raise, log, List.mem_append, List.mem_singleton] at h1
          rcases h1 with ((h1 | h1) | h1) | h1
          · exact early_not_worker _ _ (hB.events _ h1)
          · rw [h1]
            rfl
          · rw [h1]
            rfl
          · rw [h1]
            rfl
        · exact deferring_not_worker _ _ h1
      · intro _
        exact Or.inl ⟨n, v, hv⟩
    · left
      constructor
      · intro e he
        rcases mem_main env _ he with h1 | h1
        · rw [hq, heq] at h1
          simp only [raise, log, List.mem_append, List.mem_singleton] at h1
          rcases h1 with ((h1 | h1) | h1) | h1
          · exact early_not_worker _ _ (hB.events _ h1)
          · rw [h1]
            rfl
          · rw [h1]
            rfl
          · rw [h1]
            rfl
        · exact deferring_not_worker _ _ h1
      · intro _
        right
        rw [herr1]
        exact Option.noConfusion
    · right
      refine ⟨opts, args, _, hp, hq.trans heq, ?_, ?_, ?_, ?_, ?_⟩
      · simpa [log] using hB.exited
      · simpa [log] using hB.panicking
      · simpa [log] using hB.st
      · simp [log, hB.defers]
      · intro e he
        simp only [log, List.mem_append, List.mem_singleton] at he
        rcases he with (he | he) | he
        · exact Or.inl (hB.events _ he)
        · exact Or.inr (Or.inl he)
        · exact Or.inr (Or.inr he)

theorem early_not_final (b : Bool) (e : Event) (h : early b e = true) : isFinal e = false := by
  cases e with
  | call c => cases c <;> simp_all [early, isFinal]
  | stderr m => cases m <;> simp_all [early, isFinal]
  | _ => simp_all [early, isFinal]

theorem working_not_final (inp : Input) (m : Int) (e : Event)
    (h : working inp m e = true) : isFinal e = false := by
  cases e with
  | call c => cases c <;> simp_all [working, starting, isFinal]
  | _ => simp_all [working, starting, isFinal]

theorem panicTail_isPanic (env : Env) (n : Nat) (c : Call) :
    ∀ e ∈ panicTail env n c, isPanic e = true := by
  unfold panicTail
  split <;> simp [isPanic]

theorem recoverEvents_isRecover (pk : Option PanicVal) :
    ∀ e ∈ recoverEvents pk, isRecover e = true := by
  cases pk <;> simp [recoverEvents, isRecover]

theorem emitAfter_kind (env : Env) (n : Nat) :
    ∀ e ∈ emitAfter env n, isStdout e = true ∨ isPanic e = true := by
  unfold emitAfter
  split
  · simp
  · exact emitEvents_kind _

/-- The body of a run that reached line 147 holds no event of the end of a
run. -/
theorem started_body_not_final (env : Env) (opts : cmdOptions) (inp : Input) (p2 : Proc)
    (hev : ∀ e ∈ p2.trace, early (fileGiven env) e = true ∨ e = Event.call Call.ttyReady ∨
      e = Event.call Call.termboxInit) :
    ∀ e ∈ (runWorkers env opts inp p2).trace, isFinal e = false := by
  intro e he
  rcases (runWorkers_worked env opts inp p2).events e he with h | h
  · rcases hev e h with h1 | h1 | h1
    · exact early_not_final _ _ h1
    · rw [h1]
      rfl
    · rw [h1]
      rfl
  · exact working_not_final _ _ _ h

/-- C9: in every run in which `termbox.Init` returned without error, the
trace is the events of the body, none of which is a release of the terminal,
a recover step, a write to standard output or an exit, followed by the
deferred steps in this order: `termbox.Close` (and its panic, if any),
`TtyTerm` (and its panic, if any), the recover step, the call of `Result()`
and the writes of the emit loop, and last the exit. So the terminal is
released before the first line is written, and the lines are written before
the process exits, whether the body returned or panicked. -/
theorem terminal_released_before_emit (env : Env)
    (hcall : Event.call Call.termboxInit ∈ (main env).trace)
    (hret : ∀ n, env.panicAt n Call.termboxInit = none)
    (hok : env.termboxInit = none) :
    ∃ rel1 rel2 out s,
      (main env).trace =
        (mainBody env initial).trace ++ [Event.call Call.termboxClose] ++ rel1 ++
          [Event.call Call.ttyTerm] ++ rel2 ++ [Event.call Call.result] ++ out ++
          [Event.exit s] ∧
      (main env).exited = some s ∧
      (∀ e ∈ (mainBody env initial).trace, isFinal e = false) ∧
      (∀ e ∈ rel1, isPanic e = true) ∧
      (∀ e ∈ rel2, isRecover e = true) ∧
      (∀ e ∈ out, isStdout e = true ∨ isPanic e = true) := by
  rcases main_started_or_not env with ⟨_, h2⟩ | ⟨opts, args, p2, hp, hq, hx, hpk, hst, hd, hev⟩
  · exfalso
    rcases h2 hcall with ⟨n, v, hv⟩ | h
    · rw [hret n] at hv
      exact Option.noConfusion hv
    · exact h hok
  · have hW := runWorkers_worked env opts (inputOf args) p2
    have hx1 : (mainBody env initial).exited = none := by
      rw [hq, hW.exited, hx]
    have hd1 : (mainBody env initial).defers =
        [Deferred.termboxClose, Deferred.ttyTerm, Deferred.handler, Deferred.exit] := by
      rw [hq, hW.defers, hd]
    obtain ⟨ht, hex⟩ := runDefers_full_trace env (mainBody env initial) hx1
    have hmain : main env = runDefers env
        [Deferred.termboxClose, Deferred.ttyTerm, Deferred.handler, Deferred.exit]
        (mainBody env initial) := by
      rw [main, hd1]
    rw [hmain]
    refine ⟨_, _, _, _, ht, hex, ?_, ?_, ?_, ?_⟩
    · rw [hq]
      exact started_body_not_final env opts (inputOf args) p2 hev
    · exact panicTail_isPanic env _ _
    · intro e he
      rcases List.mem_append.mp he with h | h
      · have := panicTail_isPanic env _ _ e h
        cases e <;> simp_all [isPanic, isRecover]
      · exact recoverEvents_isRecover _ e h
    · intro e he
      rcases List.mem_append.mp he with h | h
      · exact Or.inr (panicTail_isPanic env _ _ e h)
      · exact emitAfter_kind env _ e h

theorem terminal_released_before_emit_witness :
    ∃ rel1 rel2 out s,
      (main envPanic).trace =
        (mainBody envPanic initial).trace ++ [Event.call Call.termboxClose] ++ rel1 ++
          [Event.call Call.ttyTerm] ++ rel2 ++ [Event.call Call.result] ++ out ++
          [Event.exit s] ∧
      (main envPanic).exited = some s ∧
      (∀ e ∈ (mainBody envPanic initial).trace, isFinal e = false) ∧
      (∀ e ∈ rel1, isPanic e = true) ∧
      (∀ e ∈ rel2, isRecover e = true) ∧
      (∀ e ∈ out, isStdout e = true ∨ isPanic e = true) :=
  terminal_released_before_emit envPanic (by decide) (fun _ => rfl) rfl

theorem invoke_id_quiet (env : Env) (c : Call) (p : Proc)
    (h : ∀ e ∈ (invoke env c p id).trace, isPanic e = false) :
    invoke env c p id = log (Event.call c) p := by
  unfold invoke at h ⊢
  split
  · rename_i v hv
    rw [hv] at h
    have := h (Event.panic (PanicVal.value v)) (by simp [raise])
    simp [isPanic] at this
  · rfl

theorem handler_quiet (env : Env) (p : Proc) (hpk : p.panicking = none)
    (h : ∀ e ∈ (handler env p).trace, isPanic e = false) :
    handler env p =
      { p with
        trace := p.trace ++ [Event.call Call.result] ++
          (outputSet env).map fun l => Event.stdout (normalise l) } := by
  rw [handler_eq] at h ⊢
  simp only [hpk, recoverEvents, List.append_nil] at h ⊢
  cases hr : env.panicAt p.trace.length Call.result with
  | some v =>
    exfalso
    have := h (Event.panic (PanicVal.value v)) (by simp [panicTail, hr])
    simp [isPanic] at this
  | none =>
    have he : ∀ e ∈ emitEvents (outputSet env), isPanic e = false := by
      intro e he
      apply h
      simp [panicTail, emitAfter, hr, he]
    obtain ⟨_, h2, h3⟩ := emitEvents_no_panic (outputSet env) he
    simp [panicTail, panicAfter, emitAfter, hr, h2, h3]

/-- The four deferred calls after a body that returned, when nothing panics:
the two releases, the call of `Result()`, one write per line, the exit with
the value of `st`. -/
theorem runDefers_full_quiet (env : Env) (q : Proc) (hx : q.exited = none)
    (hpk : q.panicking = none)
    (hnp : ∀ e ∈ (runDefers env
        [Deferred.termboxClose, Deferred.ttyTerm, Deferred.handler, Deferred.exit] q).trace,
      isPanic e = false) :
    runDefers env
        [Deferred.termboxClose, Deferred.ttyTerm, Deferred.handler, Deferred.exit] q =
      { q with
        trace := q.trace ++
          [Event.call Call.termboxClose, Event.call Call.ttyTerm, Event.call Call.result] ++
          ((outputSet env).map fun l => Event.stdout (normalise l)) ++ [Event.exit q.st]
        exited := some q.st } := by
  rw [runDefers_full env q hx] at hnp ⊢
  have hH : ∀ e ∈ (handler env (invoke env Call.ttyTerm
      (invoke env Call.termboxClose q id) id)).trace, isPanic e = false :=
    fun e he => hnp e (runDeferred_keeps env Deferred.exit _ e he)
  have hB : ∀ e ∈ (invoke env Call.ttyTerm (invoke env Call.termboxClose q id) id).trace,
      isPanic e = false :=
    fun e he => hH e (runDeferred_keeps env Deferred.handler _ e he)
  have hA : ∀ e ∈ (invoke env Call.termboxClose q id).trace, isPanic e = false :=
    fun e he => hB e (runDeferred_keeps env Deferred.ttyTerm _ e he)
  have eA := invoke_id_quiet env Call.termboxClose q hA
  rw [eA] at hB hH ⊢
  have eB := invoke_id_quiet env Call.ttyTerm _ hB
  rw [eB] at hH ⊢
  have eH := handler_quiet env _ (by simpa [log] using hpk) hH
  rw [eH]
  simp [runDeferred, log]

theorem writes_nil (l : List Event) (h : ∀ e ∈ l, isFinal e = false) : writes l = [] := by
  induction l with
  | nil => rfl
  | cons e es ih =>
    have he := h e (List.mem_cons_self _ _)
    have ih1 := ih fun x hx => h x (List.mem_cons_of_mem _ hx)
    cases e <;> simp_all [writes, isFinal]

theorem early_not_wait (b : Bool) (e : Event) (h : early b e = true) :
    isWaitOrRead e = false := by
  cases e with
  | call c => cases c <;> simp_all [early, isWaitOrRead]
  | _ => simp_all [early, isWaitOrRead]

theorem starting_not_wait (inp : Input) (m : Int) (e : Event)
    (h : starting inp m e = true) : isWaitOrRead e = false := by
  cases e with
  | call c => cases c <;> simp_all [starting, isWaitOrRead]
  | _ => simp_all [starting, isWaitOrRead]

/-- C4: in every run in which a worker was started and nothing panics, the
trace is: events `pre` that hold no wait, no read of the exit status and no
event of the end of a run; the call of `WaitDone` and, right after its
return, the one read of `ExitStatus`; the two releases of the terminal; the
call of `Result()`; one write per line of the Output Set, newline
normalised, in order (none when the set is nil or empty); the exit. The
process exits with the `ExitStatus` read. -/
theorem normal_run_status_and_output (env : Env)
    (hnp : ∀ e ∈ (main env).trace, isPanic e = false)
    (hgo : ∃ w m, Event.go w m ∈ (main env).trace) :
    ∃ pre,
      (main env).trace =
        pre ++ [Event.call Call.waitDone, Event.readExitStatus env.ExitStatus] ++
          [Event.call Call.termboxClose, Event.call Call.ttyTerm, Event.call Call.result] ++
          ((outputSet env).map fun l => Event.stdout (normalise l)) ++
          [Event.exit env.ExitStatus] ∧
      (∀ e ∈ pre, isFinal e = false ∧ isWaitOrRead e = false) ∧
      (main env).exited = some env.ExitStatus ∧
      writes (main env).trace = (outputSet env).map normalise ∧
      stdoutOf (main env).trace = ((outputSet env).map normalise).flatten := by
  rcases main_started_or_not env with ⟨h1, _⟩ | ⟨opts, args, p2, hp, hq, hx, hpk, hst, hd, hev⟩
  · exfalso
    obtain ⟨w, m, hm⟩ := hgo
    have := h1 _ hm
    simp [isWorkerEvent] at this
  · have hW := runWorkers_worked env opts (inputOf args) p2
    have hx1 : (mainBody env initial).exited = none := by
      rw [hq, hW.exited, hx]
    have hd1 : (mainBody env initial).defers =
        [Deferred.termboxClose, Deferred.ttyTerm, Deferred.handler, Deferred.exit] := by
      rw [hq, hW.defers, hd]
    have hmain : main env = runDefers env
        [Deferred.termboxClose, Deferred.ttyTerm, Deferred.handler, Deferred.exit]
        (mainBody env initial) := by
      rw [main, hd1]
    rcases hW.outcome with ⟨v, hv⟩ | ⟨hpk1, hst1, pre, hpre, hpe⟩
    · exfalso
      rw [← hq] at hv
      have := hnp _ (runDefers_keeps env _ _ _ hv)
      simp [isPanic] at this
    · rw [← hq] at hpk1 hst1 hpre
      rw [hmain] at hnp
      have hfull := runDefers_full_quiet env (mainBody env initial) hx1
        (by rw [hpk1, hpk]) hnp
      have hpe1 : ∀ e ∈ pre, isFinal e = false ∧ isWaitOrRead e = false := by
        intro e he
        rcases hpe e he with h | h
        · rcases hev e h with h1 | h1 | h1
          · exact ⟨early_not_final _ _ h1, early_not_wait _ _ h1⟩
          · rw [h1]
            exact ⟨rfl, rfl⟩
          · rw [h1]
            exact ⟨rfl, rfl⟩
        · exact ⟨working_not_final _ _ _ (starting_working _ _ _ h), starting_not_wait _ _ _ h⟩
      have htr : (main env).trace =
          pre ++ [Event.call Call.waitDone, Event.readExitStatus env.ExitStatus] ++
            [Event.call Call.termboxClose, Event.call Call.ttyTerm, Event.call Call.result] ++
            ((outputSet env).map fun l => Event.stdout (normalise l)) ++
            [Event.exit env.ExitStatus] := by
        rw [hmain, hfull]
        simp only [hpre, hst1]
      have hw : writes (main env).trace = (outputSet env).map normalise := by
        rw [htr]
        simp only [writes_append, writes_nil pre fun e he => (hpe1 e he).1, writes_map_stdout]
        simp [writes]
      refine ⟨pre, htr, hpe1, ?_, hw, ?_⟩
      · rw [hmain, hfull, hst1]
      · simp [stdoutOf, hw]

theorem normal_run_status_and_output_witness :
    (main envCancel).exited = some 1 ∧ writes (main envCancel).trace = [] :=
  match normal_run_status_and_output envCancel (by decide) ⟨Worker.reader, 0, by decide⟩ with
  | ⟨_, _, _, h3, h4, _⟩ => ⟨h3, h4⟩

/-! ## What holds on every run -/

/-- Every body ends without having exited, with no event of the end of a run
in its trace, and with one of four stacks of deferred calls. -/
theorem mainBody_end (env : Env) :
    (mainBody env initial).exited = none ∧
    (∀ e ∈ (mainBody env initial).trace, isFinal e = false) ∧
    ((mainBody env initial).defers = [Deferred.exit] ∨
      (mainBody env initial).defers = [Deferred.handler, Deferred.exit] ∨
      (mainBody env initial).defers = [Deferred.ttyTerm, Deferred.handler, Deferred.exit] ∨
      (mainBody env initial).defers =
        [Deferred.termboxClose, Deferred.ttyTerm, Deferred.handler, Deferred.exit]) := by
  rcases mainBody_reach env with hE | ⟨opts, args, p1, hp, hq, hB, hm⟩
  · refine ⟨hE.exited, fun e he => early_not_final _ _ (hE.events e he), ?_⟩
    rcases hE.defers with h | h
    · exact Or.inl h
    · exact Or.inr (Or.inl h)
  · have hf : ∀ e ∈ p1.trace, isFinal e = false :=
      fun e he => early_not_final _ _ (hB.events e he)
    rw [hq]
    rcases setupTerminal_cases env opts (inputOf args) p1 with
      ⟨v, _, heq⟩ | ⟨err, _, heq⟩ | ⟨n, v, _, _, heq⟩ | ⟨err, _, _, heq⟩ | ⟨_, _, heq⟩
    · rw [heq]
      refine ⟨hB.exited, ?_, Or.inr (Or.inl hB.defers)⟩
      intro e he
      simp only [raise, log, List.mem_append, List.mem_singleton] at he
      rcases he with (he | he) | he
      · exact hf e he
      · rw [he]
        rfl
      · rw [he]
        rfl
    · rw [heq]
      refine ⟨hB.exited, ?_, Or.inr (Or.inl hB.defers)⟩
      intro e he
      simp only [raise, log, List.mem_append, List.mem_singleton] at he
      rcases he with (he | he) | he
      · exact hf e he
      · rw [he]
        rfl
      · rw [he]
        rfl
    · rw [heq]
      refine ⟨hB.exited, ?_, Or.inr (Or.inr (Or.inl (by simp [raise, log, hB.defers])))⟩
      intro e he
      simp only [raise, log, List.mem_append, List.mem_singleton] at he
      rcases he with ((he | he) | he) | he
      · exact hf e he
      · rw [he]
        rfl
      · rw [he]
        rfl
      · rw [he]
        rfl
    · rw [heq]
      refine ⟨hB.exited, ?_, Or.inr (Or.inr (Or.inl (by simp [raise, log, hB.defers])))⟩
      intro e he
      simp only [raise, log, List.mem_append, List.mem_singleton] at he
      rcases he with ((he | he) | he) | he
      · exact hf e he
      · rw [he]
        rfl
      · rw [he]
        rfl
      · rw [he]
        rfl
    · rw [heq]
      have hW := runWorkers_worked env opts (inputOf args)
        { log (Event.call Call.termboxInit)
            { log (Event.call Call.ttyReady) p1 with
              defers := Deferred.ttyTerm :: p1.defers } with
          defers := Deferred.termboxClose :: Deferred.ttyTerm :: p1.defers }
      refine ⟨hW.exited.trans hB.exited, ?_,
        Or.inr (Or.inr (Or.inr (hW.defers.trans (by simp [hB.defers]))))⟩
      apply started_body_not_final env
      intro e he
      simp only [log, List.mem_append, List.mem_singleton] at he
      rcases he with (he | he) | he
      · exact Or.inl (hB.events e he)
      · exact Or.inr (Or.inl he)
      · exact Or.inr (Or.inr he)

theorem writes_panicTail (env : Env) (n : Nat) (c : Call) : writes (panicTail env n c) = [] := by
  unfold panicTail
  split <;> rfl

theorem writes_emitEvents (ls : List GoString) :
    ∃ k, writes (emitEvents ls) = (ls.map normalise).take k := by
  induction ls with
  | nil => exact ⟨0, rfl⟩
  | cons l ls ih =>
    obtain ⟨k, hk⟩ := ih
    by_cases hl : l = []
    · exact ⟨0, by simp [emitEvents, hl, writes]⟩
    · exact ⟨k + 1, by simp [emitEvents, hl, writes, hk]⟩

theorem writes_emitAfter (env : Env) (n : Nat) :
    ∃ k, writes (emitAfter env n) = ((outputSet env).map normalise).take k := by
  unfold emitAfter
  split
  · exact ⟨0, rfl⟩
  · exact writes_emitEvents _

theorem writes_handler (env : Env) (p : Proc) (hp : writes p.trace = []) :
    ∃ k, writes (handler env p).trace = ((outputSet env).map normalise).take k := by
  obtain ⟨k, hk⟩ := writes_emitAfter env (p.trace ++ recoverEvents p.panicking).length
  refine ⟨k, ?_⟩
  rw [handler_eq]
  simp only [writes_append, hp, writes_recoverEvents, List.nil_append]
  rw [show ∀ (a : Event) (l : List Event), writes (a :: l) = writes [a] ++ writes l from
    fun a l => writes_append [a] l]
  rw [writes_append, writes_panicTail, hk]
  rfl

theorem writes_invoke_id (env : Env) (c : Call) (p : Proc) :
    writes (invoke env c p id).trace = writes p.trace := by
  rw [invoke_id]
  simp [writes_append, writes, writes_panicTail]

/-- On every run, what `main` writes to standard output is written by the
emit loop: the writes are the first `k` newline-normalised lines of the
Output Set, for some `k`, and there is none when the handler was not
registered, which is the case on every exit path before the coordinator
context is created. -/
theorem stdout_from_emit_only (env : Env) :
    (∃ k, writes (main env).trace = ((outputSet env).map normalise).take k) ∧
    (Deferred.handler ∉ (mainBody env initial).defers → writes (main env).trace = []) := by
  obtain ⟨hx, hf, hd⟩ := mainBody_end env
  have hw : writes (mainBody env initial).trace = [] := writes_nil _ hf
  rcases hd with hd | hd | hd | hd
  · have hm : writes (main env).trace = [] := by
      rw [main, hd, runDefers_exit]
      simp [log, writes_append, hw, writes]
    exact ⟨⟨0, by simp [hm]⟩, fun _ => hm⟩
  · refine ⟨?_, fun h => absurd (by simp [hd]) h⟩
    obtain ⟨k, hk⟩ := writes_handler env _ hw
    refine ⟨k, ?_⟩
    rw [main, hd, runDefers_handler env _ hx]
    simp [runDeferred, log, writes_append, hk, writes]
  · refine ⟨?_, fun h => absurd (by simp [hd]) h⟩
    obtain ⟨k, hk⟩ := writes_handler env (invoke env Call.ttyTerm (mainBody env initial) id)
      (by rw [writes_invoke_id, hw])
    refine ⟨k, ?_⟩
    rw [main, hd, runDefers_ttyTerm env _ hx]
    simp [runDeferred, log, writes_append, hk, writes]
  · refine ⟨?_, fun h => absurd (by simp [hd]) h⟩
    obtain ⟨k, hk⟩ := writes_handler env
      (invoke env Call.ttyTerm (invoke env Call.termboxClose (mainBody env initial) id) id)
      (by rw [writes_invoke_id, writes_invoke_id, hw])
    refine ⟨k, ?_⟩
    rw [main, hd, runDefers_full env _ hx]
    simp [runDeferred, log, writes_append, hk, writes]

theorem handler_recovers (env : Env) (p : Proc) (v : PanicVal) (hp : p.panicking = some v) :
    (handler env p).st = 1 ∧ Event.recovered v ∈ (handler env p).trace ∧
      Event.stderr (StderrMsg.panicMsg v) ∈ (handler env p).trace := by
  rw [handler_eq]
  simp [hp, recoverEvents]

theorem invoke_id_panicking (env : Env) (c : Call) (p : Proc) (v : PanicVal)
    (hp : p.panicking = some v) : ∃ v1, (invoke env c p id).panicking = some v1 := by
  rw [invoke_id]
  simp only [panicAfter]
  split
  · exact ⟨_, rfl⟩
  · exact ⟨v, hp⟩

/-- On every run whose body ends in a panic after the handler was registered,
the handler recovers a panic (that of the body, or that of a release of the
terminal which replaced it), reports it on standard error, and the process
exits with status 1. -/
theorem panic_recovered_exit_one (env : Env) (v : PanicVal)
    (hpk : (mainBody env initial).panicking = some v)
    (hh : Deferred.handler ∈ (mainBody env initial).defers) :
    (main env).exited = some 1 ∧
    ∃ v1, Event.recovered v1 ∈ (main env).trace ∧
      Event.stderr (StderrMsg.panicMsg v1) ∈ (main env).trace := by
  obtain ⟨hx, _, hd⟩ := mainBody_end env
  rcases hd with hd | hd | hd | hd
  · rw [hd] at hh
    simp at hh
  · obtain ⟨h1, h2, h3⟩ := handler_recovers env _ v hpk
    rw [main, hd, runDefers_handler env _ hx]
    exact ⟨by simp [runDeferred, log, h1],
      v, runDeferred_keeps env _ _ _ h2, runDeferred_keeps env _ _ _ h3⟩
  · obtain ⟨v1, hv1⟩ := invoke_id_panicking env Call.ttyTerm _ v hpk
    obtain ⟨h1, h2, h3⟩ := handler_recovers env _ v1 hv1
    rw [main, hd, runDefers_ttyTerm env _ hx]
    exact ⟨by simp [runDeferred, log, h1],
      v1, runDeferred_keeps env _ _ _ h2, runDeferred_keeps env _ _ _ h3⟩
  · obtain ⟨v1, hv1⟩ := invoke_id_panicking env Call.termboxClose _ v hpk
    obtain ⟨v2, hv2⟩ := invoke_id_panicking env Call.ttyTerm _ v1 hv1
    obtain ⟨h1, h2, h3⟩ := handler_recovers env _ v2 hv2
    rw [main, hd, runDefers_full env _ hx]
    exact ⟨by simp [runDeferred, log, h1],
      v2, runDeferred_keeps env _ _ _ h2, runDeferred_keeps env _ _ _ h3⟩

/-- C8, at an Output Set with an empty text: the index `line[len(line)-1]` is
out of range, the emit loop panics after the first line, the third line is
never written, and the process exits with status 0. -/
theorem emit_empty_line_panics_exit_zero :
    Event.panic (PanicVal.indexOutOfRange (-1) 0) ∈ (main envEmptyLine).trace ∧
      writes (main envEmptyLine).trace = [[97, 10]] ∧
      (outputSet envEmptyLine).map normalise = [[97, 10], [10], [98, 10]] ∧
      (main envEmptyLine).exited = some 0 := by
  decide

/-- C5, at a panic of `WaitDone` with an Output Set that holds an empty text:
the handler recovers the panic and the process exits with status 1, but the
emit loop panics at the empty text and the lines from it on are not
written. -/
theorem recovered_run_drops_lines_after_empty :
    Event.recovered (PanicVal.value [112]) ∈ (main envPanicEmptyLine).trace ∧
      (main envPanicEmptyLine).exited = some 1 ∧
      writes (main envPanicEmptyLine).trace = [[97, 10]] ∧
      (outputSet envPanicEmptyLine).map normalise = [[97, 10], [10], [98, 10]] := by
  decide

/-- C10, at an Output Set of one line with an empty text: nothing is written
to standard output, where the newline-normalised line is one newline. -/
theorem stdout_misses_empty_line :
    stdoutOf (main envOnlyEmptyLine).trace = [] ∧
      ((outputSet envOnlyEmptyLine).map normalise).flatten = [10] ∧
      (main envOnlyEmptyLine).exited = some 0 := by
  decide

end Peco
